import Mathlib

/-!
Shallow embedding of the SlicerNNUnet plugin core
(`SlicerNNUNetLib/Parameter.py`, `SlicerNNUNetLib/SegmentationLogic.py`,
`SlicerNNUNetLib/InstallLogic.py`).

Filesystem paths are modelled as lists of path components (the `parts` of a
`pathlib.Path`, without an anchor: the claims under study never depend on
absolute-path anchors).  A filesystem is the ordered list of its regular
files, in the order a recursive `rglob` walk enumerates them, together with
the decoded JSON content of any `dataset.json` file.  Python exceptions are
modelled with an explicit error type and `Except`.
-/

namespace SlicerNNUNet

/-- A filesystem path: the list of its components (`pathlib.Path.parts`). -/
abbrev FPath := List String

/-- Python exceptions that the modelled code can raise. -/
inductive PyErr where
  | valueError (msg : String)
  | typeError (msg : String)
  | attributeError (msg : String)
  | runtimeError (msg : String)
  | indexError (msg : String)
  | invalidRequirement (msg : String)
  | recursionError
  deriving Repr, DecidableEq

/-- Decoded content of a `dataset.json` marker file: the optional `labels`
name-to-integer mapping (in dict insertion order) and the optional
`file_ending` entry. -/
structure DatasetJson where
  labels : Option (List (String × Int)) := none
  file_ending : Option String := none
  deriving Repr, DecidableEq

/-- The filesystem as seen by the plugin: the ordered list of regular files
(`rglob` walk order, so "first match wins" is the first list element), plus
the decoded content of `dataset.json` files. -/
structure FS where
  files : List FPath
  content : FPath → DatasetJson

/-- `pathlib` `Path.name`: last component, `""` for the empty path. -/
def pathName (p : FPath) : String := p.getLast? |>.getD ""

/-- `pathlib` `Path.parent`: drop the last component. -/
def pathParent (p : FPath) : FPath := p.dropLast

/-- Python `sep.join(groups)`. -/
def joinSepStr (sep : String) : List String → String
  | [] => ""
  | [g] => g
  | g :: gs => g ++ sep ++ joinSepStr sep gs

/-- Python `str.startswith`. -/
def pyStartsWith (pfx s : String) : Bool := pfx.toList.isPrefixOf s.toList

/-- Python `str.split("__")` at character level: split at each
non-overlapping occurrence of two consecutive underscores, left to right. -/
def splitOnDunder : List Char → List (List Char)
  | [] => [[]]
  | '_' :: '_' :: rest => [] :: splitOnDunder rest
  | c :: rest =>
    match splitOnDunder rest with
    | [] => [[]]
    | g :: gs => (c :: g) :: gs

/-- Python `name.split("__")` on a string. -/
def splitDunder (s : String) : List String :=
  (splitOnDunder s.toList).map List.asString

/-- `str(Path)`: `"."` for an empty path, else the components joined by `/`. -/
def pathStr (p : FPath) : String :=
  if p.isEmpty then "." else joinSepStr "/" p

/-- A path "exists" when it is a regular file of the filesystem or an
ancestor directory of one (the model cannot hold empty directories, which
none of the claims need). -/
def FS.pathExists (fs : FS) (p : FPath) : Bool :=
  fs.files.any fun f => p.isPrefixOf f

/-- `next(path.rglob("dataset.json"))` with `None` on `StopIteration`:
first file under `path` (in walk order) named `dataset.json`. -/
def FS.firstDatasetFileUnder (fs : FS) (path : FPath) : Option FPath :=
  fs.files.find? fun f => path.isPrefixOf f && pathName f == "dataset.json"

/-- Python whitespace characters recognised by `str.strip()` and `int()`
(ASCII subset; the claims never involve non-ASCII whitespace). -/
def pyIsSpace (c : Char) : Bool :=
  c == ' ' || c == '\t' || c == '\n' || c == '\r' || c == '\x0b' || c == '\x0c'

/-- `str.strip()` on a character list. -/
def pyStripChars (cs : List Char) : List Char :=
  ((cs.dropWhile pyIsSpace).reverse.dropWhile pyIsSpace).reverse

/-- `str.strip()`. -/
def pyStrip (s : String) : String := (pyStripChars s.toList).asString

/-- Split a character list on every occurrence of `sep`
(Python `str.split(sep)` for a one-character separator: the result is never
empty and keeps empty groups). -/
def splitOnChar (sep : Char) : List Char → List (List Char)
  | [] => [[]]
  | c :: rest =>
    match splitOnChar sep rest with
    | [] => [[]]
    | g :: gs => if c == sep then [] :: g :: gs else (c :: g) :: gs

/-- Accumulate the integer value of a digit run where single underscores may
sit between digits (Python 3 `int()` literals such as `1_0`). -/
def pyDigitsGo (acc : Nat) : List Char → Option Nat
  | [] => some acc
  | '_' :: d :: rest =>
    if d.isDigit then pyDigitsGo (acc * 10 + (d.toNat - 48)) rest else none
  | '_' :: [] => none
  | d :: rest =>
    if d.isDigit then pyDigitsGo (acc * 10 + (d.toNat - 48)) rest else none

/-- Parse a non-empty digit run (underscore separated) to its value. -/
def pyDigits : List Char → Option Nat
  | [] => none
  | d :: rest =>
    if d.isDigit then pyDigitsGo (d.toNat - 48) rest else none

/-- Python `int(s)` (base 10): optional surrounding whitespace, optional
sign, digits with optional single underscores between them.  `none` models
a raised `ValueError`. -/
def pythonInt (s : String) : Option Int :=
  match pyStripChars s.toList with
  | '+' :: rest => (pyDigits rest).map fun n => (n : Int)
  | '-' :: rest => (pyDigits rest).map fun n => -(n : Int)
  | rest => (pyDigits rest).map fun n => (n : Int)

/-- Python `str(listOfInts)`, e.g. `"[5]"`, `"[1, 2]"`. -/
def renderIntList (l : List Int) : String :=
  "[" ++ joinSepStr ", " (l.map toString) ++ "]"

/-- The `Parameter` dataclass of `SlicerNNUNetLib/Parameter.py`.  The
`stepSize` float carries through serialization and the argument list without
arithmetic, so it is modelled as an exact rational. -/
structure Parameter where
  folds : String := ""
  device : String := "cuda"
  stepSize : Rat := ⟨1, 2, by decide, by decide⟩
  disableTta : Bool := true
  nProcessPreprocessing : Int := 1
  nProcessSegmentationExport : Int := 1
  checkPointName : String := ""
  modelPath : FPath := []
  deriving Repr, DecidableEq

namespace Parameter

/-- `Parameter._getCheckpointName`. -/
def getCheckpointName (p : Parameter) : String :=
  if p.checkPointName == "" then "checkpoint_final.pth" else p.checkPointName

/-- `Parameter._datasetFilePath`: first `dataset.json` under the model path;
when there is none but the model path directly holds the checkpoint file
(the user handed a fold directory), retry from the parent directory. -/
def datasetFilePath (p : Parameter) (fs : FS) : Option FPath :=
  match fs.firstDatasetFileUnder p.modelPath with
  | some path => some path
  | none =>
    if fs.files.any (fun f => f == p.modelPath ++ [p.getCheckpointName]) then
      fs.firstDatasetFileUnder (pathParent p.modelPath)
    else
      none

/-- `Parameter._isDatasetPathValid`. -/
def isDatasetPathValid (p : Parameter) (fs : FS) : Bool :=
  (p.datasetFilePath fs).isSome

/-- Left-to-right `int()` conversion of the comma-separated fold tokens;
the first non-integer token raises `ValueError`. -/
def parseFoldTokens : List (List Char) → Except PyErr (List Int)
  | [] => .ok []
  | tok :: rest =>
    match pythonInt tok.asString with
    | some n => (parseFoldTokens rest).map fun l => n :: l
    | none => .error (.valueError
        ("invalid literal for int() with base 10: " ++ tok.asString))

/-- `Parameter._foldsAsList`: `[int(f) for f in self.folds.strip().split(",")]
if self.folds else [0]`; a non-integer token raises `ValueError`. -/
def foldsAsList (p : Parameter) : Except PyErr (List Int) :=
  if p.folds == "" then .ok [0]
  else parseFoldTokens (splitOnChar ',' (pyStrip p.folds).toList)

/-- `Parameter._isConvertibleToInt`. -/
def isConvertibleToInt (s : String) : Bool := (pythonInt s).isSome

/-- Dataset-name convention check, `Parameter._isDatasetNameValid`
applied to a given dataset folder name. -/
def isDatasetNameValidStr (name : String) : Bool :=
  pyStartsWith "Dataset" name || isConvertibleToInt name

/-- The shared explanation appended to every `isValid` failure message. -/
def expStructMsg (p : Parameter) : String :=
  "Your model weight folder path should look like the following :\n" ++
  "Dataset<dataset_id>/<trainer_name>__<plan_name>__<conf_name>\n\n" ++
  "It should also contain a dataset.json file and fold_<i_fold> folders with model weights.\n\n" ++
  "Provided model dir :\n" ++ pathStr p.modelPath

/-- Failure message of `isValid` check (1): missing `dataset.json`. -/
def datasetMissingMsg (p : Parameter) : String :=
  "dataset.json file is missing.\n" ++ p.expStructMsg

/-- Failure message of `isValid` check (2): missing fold folders. -/
def missingFoldsMsg (p : Parameter) (missing : List Int) : String :=
  "Model folder is missing the following folds : " ++ renderIntList missing ++
  ".\n" ++ p.expStructMsg

/-- Failure message of `isValid` check (3): folds without checkpoint files. -/
def invalidWeightsMsg (p : Parameter) (invalid : List Int) : String :=
  "Following model folds don't contain " ++ p.getCheckpointName ++
  " weights : " ++ renderIntList invalid ++ ".\n" ++ p.expStructMsg

/-- Failure message of `isValid` check (4): malformed configuration folder. -/
def invalidConfMsg (p : Parameter) (confName : String) : String :=
  "Invalid nnUNet configuration folder : " ++ confName ++ "\n" ++ p.expStructMsg

/-- Failure message of `isValid` check (5): malformed dataset folder name. -/
def invalidDatasetNameMsg (p : Parameter) (dsName : String) : String :=
  "Invalid Dataset folder name : " ++ dsName ++ "\n" ++ p.expStructMsg

/-- `Parameter._getFoldPaths` relative to a given configuration folder. -/
def foldPathsOf (confFolder : FPath) (folds : List Int) : List (Int × FPath) :=
  folds.map fun fold => (fold, confFolder ++ ["fold_" ++ toString fold])

/-- `Parameter._getMissingFolds` given the configuration folder. -/
def missingFoldsOf (fs : FS) (confFolder : FPath) (folds : List Int) : List Int :=
  (foldPathsOf confFolder folds).filterMap fun fp =>
    if fs.pathExists fp.2 then none else some fp.1

/-- `Parameter._getFoldsWithInvalidWeights` given the configuration folder. -/
def invalidWeightFoldsOf (p : Parameter) (fs : FS) (confFolder : FPath)
    (folds : List Int) : List Int :=
  (foldPathsOf confFolder folds).filterMap fun fp =>
    if fs.pathExists (fp.2 ++ [p.getCheckpointName]) then none else some fp.1

/-- `Parameter.isValid`: the five checks in source order, short-circuiting;
a fold-string parse error escapes as a raised `ValueError`. -/
def isValid (p : Parameter) (fs : FS) : Except PyErr (Bool × String) :=
  match p.datasetFilePath fs with
  | none => .ok (false, p.datasetMissingMsg)
  | some dsf => do
    let confFolder := pathParent dsf
    let folds ← p.foldsAsList
    let missing := missingFoldsOf fs confFolder folds
    if missing.isEmpty then
      let invalidW := invalidWeightFoldsOf p fs confFolder folds
      if invalidW.isEmpty then
        let confName := pathName confFolder
        if (splitDunder confName).length == 3 then
          let dsName := pathName (pathParent confFolder)
          if isDatasetNameValidStr dsName then
            .ok (true, "")
          else
            .ok (false, p.invalidDatasetNameMsg dsName)
        else
          .ok (false, p.invalidConfMsg confName)
      else
        .ok (false, p.invalidWeightsMsg invalidW)
    else
      .ok (false, p.missingFoldsMsg missing)

/-- `Parameter.readSegmentIdsAndLabelsFromDatasetFile`: `none` when no
`dataset.json` is found; raises `AttributeError` when the file exists but
has no `labels` entry (`None.items()`); otherwise the
`("Segment_<value>", name)` pairs in dict order. -/
def readSegmentIdsAndLabelsFromDatasetFile (p : Parameter) (fs : FS) :
    Except PyErr (Option (List (String × String))) :=
  match p.datasetFilePath fs with
  | none => .ok none
  | some dsf =>
    match (fs.content dsf).labels with
    | none => .error (.attributeError "'NoneType' object has no attribute 'items'")
    | some labels =>
      .ok (some (labels.map fun kv => ("Segment_" ++ toString kv.2, kv.1)))

/-- `Parameter.readFileEndingFromDatasetFile`. -/
def readFileEndingFromDatasetFile (p : Parameter) (fs : FS) : String :=
  match p.datasetFilePath fs with
  | none => ".nii.gz"
  | some dsf => (fs.content dsf).file_ending.getD ".nii.gz"

end Parameter

/-- Availability answers of `torch.cuda.is_available()` /
`torch.backends.mps.is_available()` in the current runtime. -/
structure TorchEnv where
  cudaAvailable : Bool
  mpsAvailable : Bool
  deriving Repr, DecidableEq

/-- One element of the Python argument list handed to the process runner:
the code mixes strings with raw ints and the raw step-size float. -/
inductive Arg where
  | str (s : String)
  | int (n : Int)
  | num (q : Rat)
  deriving Repr, DecidableEq

namespace Parameter

/-- `Parameter.isSelectedDeviceAvailable`. -/
def isSelectedDeviceAvailable (p : Parameter) (env : TorchEnv) : Bool :=
  if p.device == "cuda" && !env.cudaAvailable then false
  else if p.device == "mps" && !env.mpsAvailable then false
  else true

/-- `Parameter._getDevice`: fall back to `"cpu"` when the configured device
is unavailable. -/
def getDevice (p : Parameter) (env : TorchEnv) : String :=
  if p.isSelectedDeviceAvailable env then p.device else "cpu"

/-- `Parameter.asArgList`: validate, then build the nnUNet CLI argument
list.  The function is pure — the Python method never assigns to `self` —
and returns the (unchanged) parameter alongside the list to make that frame
fact a stated part of the embedding. -/
def asArgList (p : Parameter) (env : TorchEnv) (fs : FS) (inDir outDir : FPath) :
    Except PyErr (List Arg × Parameter) := do
  let r ← p.isValid fs
  if r.1 then
    match p.datasetFilePath fs with
    | none => .error (.attributeError "'NoneType' object has no attribute 'parent'")
    | some dsf =>
      let confFolder := pathParent dsf
      let dsName := pathName (pathParent confFolder)
      match splitDunder (pathName confFolder) with
      | [tr, plan, conf] =>
        let folds ← p.foldsAsList
        let args :=
          [Arg.str "-i", Arg.str (pathStr inDir),
           Arg.str "-o", Arg.str (pathStr outDir),
           Arg.str "-d", Arg.str dsName,
           Arg.str "-tr", Arg.str tr,
           Arg.str "-p", Arg.str plan,
           Arg.str "-c", Arg.str conf,
           Arg.str "-f"] ++ folds.map (fun f => Arg.str (toString f)) ++
          [Arg.str "-npp", Arg.int p.nProcessPreprocessing,
           Arg.str "-nps", Arg.int p.nProcessSegmentationExport,
           Arg.str "-step_size", Arg.num p.stepSize,
           Arg.str "-device", Arg.str (p.getDevice env),
           Arg.str "-chk", Arg.str p.getCheckpointName]
        let args := if p.disableTta then args ++ [Arg.str "--disable_tta"] else args
        .ok (args, p)
      | _ => .error (.indexError "list index out of range")
  else
    .error (.runtimeError ("Invalid nnUNet configuration. " ++ r.2))

end Parameter

/-! ## Segmentation logic (`SegmentationLogic.py`) -/

/-- A loaded segmentation node: segments as `(segmentId, name)` pairs. -/
abbrev Segmentation := List (String × String)

/-- `segmentationNode.GetSegmentation().GetSegment(id)` followed by
`SetName`: rename the segment with the given id, no-op when absent. -/
def setSegmentName (seg : Segmentation) (sid name : String) : Segmentation :=
  seg.map fun e => if e.1 == sid then (e.1, name) else e

/-- The rename loop body of `SegmentationLogic._renameSegments`. -/
def applyLabels (labels : List (String × String)) (seg : Segmentation) : Segmentation :=
  labels.foldl (fun s kv => setSegmentName s kv.1 kv.2) seg

/-- Observed name of the segment with the given id (first match). -/
def segmentName (seg : Segmentation) (sid : String) : Option String :=
  (seg.find? fun e => e.1 == sid).map Prod.snd

/-- Fixed scratch-state of one `SegmentationLogic` instance: its temporary
directory and the configured parameter. -/
structure SegLogicState where
  tmpDir : FPath
  param : Parameter

/-- `SegmentationLogic.nnUNetOutDir`. -/
def SegLogicState.nnUNetOutDir (st : SegLogicState) : FPath := st.tmpDir ++ ["output"]

/-- `SegmentationLogic.nnUNetInDir`. -/
def SegLogicState.nnUNetInDir (st : SegLogicState) : FPath := st.tmpDir ++ ["input"]

/-- The fixed file name `SegmentationLogic._prepareInferenceDir` exports the
input volume to, regardless of the model's declared `file_ending`. -/
def exportFileName : String := "volume_0000.nii.gz"

/-- The full export path used by `SegmentationLogic._prepareInferenceDir`. -/
def SegLogicState.exportVolumePath (st : SegLogicState) : FPath :=
  st.nnUNetInDir ++ [exportFileName]

/-- Name test of the `rglob("*.nii*")` pattern in
`SegmentationLogic._outFile`: the name must contain `".nii"`. -/
def matchesNiiGlob (name : String) : Bool :=
  decide (".nii".toList <:+: name.toList)

/-- `SegmentationLogic._outFile`: first file (walk order) under the output
scratch directory whose name matches `*.nii*`; `none` models the raised
`StopIteration`. -/
def SegLogicState.outFile (st : SegLogicState) (fs : FS) : Option FPath :=
  fs.files.find? fun f =>
    st.nnUNetOutDir.isPrefixOf f && matchesNiiGlob (pathName f)

/-- `SegmentationLogic._renameSegments`: read the label pairs from the
dataset file; `None` (no marker file) is tolerated, otherwise rename each
matching segment. -/
def renameSegments (st : SegLogicState) (fs : FS) (seg : Segmentation) :
    Except PyErr Segmentation := do
  match ← st.param.readSegmentIdsAndLabelsFromDatasetFile fs with
  | none => .ok seg
  | some labels => .ok (applyLabels labels seg)

/-- `SegmentationLogic.loadSegmentation`.  `host` models
`slicer.util.loadSegmentation`, mapping the located output file to the
segmentation node the host creates.  A missing output file (`StopIteration`)
is caught and re-raised as `RuntimeError`; errors from the rename step
propagate unchanged. -/
def loadSegmentation (st : SegLogicState) (fs : FS) (host : FPath → Segmentation) :
    Except PyErr Segmentation :=
  match st.outFile fs with
  | none => .error (.runtimeError
      ("Failed to load the segmentation.\nCheck the inference folder content " ++
        pathStr st.nnUNetOutDir))
  | some f => renameSegments st fs (host f)

/-! ## Process lifecycle (`Process` and `SegmentationLogic.startSegmentation`)

The `Process` wrapper owns one `QProcess`; its state is the optionally
running child (identified by a fresh pid).  Every observable action on child
processes is recorded as an event so that "runs never overlap" is a
statement about the event trace. -/

/-- State of the `Process` wrapper: the running child (if any) and a fresh
pid supply. -/
structure ProcState where
  running : Option Nat := none
  nextPid : Nat := 0
  deriving Repr, DecidableEq

/-- Observable process events. -/
inductive ProcEvent where
  | killed (pid : Nat)
  | spawned (pid : Nat)
  | finished (pid : Nat)
  | errored
  deriving Repr, DecidableEq

namespace Process

/-- `Process.stop`: kill the child iff one is running. -/
def stop (s : ProcState) : ProcState × List ProcEvent :=
  match s.running with
  | some pid => ({ s with running := none }, [.killed pid])
  | none => (s, [])

/-- `Process.start`: always `stop` first, then spawn the new child. -/
def start (s : ProcState) : ProcState × List ProcEvent :=
  let (s1, evs) := stop s
  ({ running := some s1.nextPid, nextPid := s1.nextPid + 1 }, evs ++ [.spawned s1.nextPid])

/-- The child terminating on its own (the `finished` signal). -/
def finish (s : ProcState) : ProcState × List ProcEvent :=
  match s.running with
  | some pid => ({ s with running := none }, [.finished pid])
  | none => (s, [])

end Process

/-- `SegmentationLogic.startSegmentation`: when preparing the scratch
directory fails, report an error and never touch the process; otherwise
start the inference process (which first stops any prior one). -/
def startSegmentation (prepOk : Bool) (s : ProcState) : ProcState × List ProcEvent :=
  if prepOk then Process.start s else (s, [.errored])

/-- The driving events a `SegmentationLogic` instance can receive. -/
inductive LogicOp where
  | startSeg (prepOk : Bool)
  | stopSeg
  | procFinished
  deriving Repr, DecidableEq

/-- One step of the logic. -/
def execOp (s : ProcState) : LogicOp → ProcState × List ProcEvent
  | .startSeg prepOk => startSegmentation prepOk s
  | .stopSeg => Process.stop s
  | .procFinished => Process.finish s

/-- Event trace of a sequence of operations. -/
def runOps (s : ProcState) : List LogicOp → List ProcEvent
  | [] => []
  | op :: ops => (execOp s op).2 ++ runOps (execOp s op).1 ops

/-- Number of live child processes implied by a trace, starting from
`init` live processes (spawns add one, kills/finishes remove one). -/
def liveAfter (init : Int) (evs : List ProcEvent) : Int :=
  evs.foldl
    (fun c e =>
      match e with
      | .spawned _ => c + 1
      | .killed _ => c - 1
      | .finished _ => c - 1
      | .errored => c)
    init

/-- Live-process count of a wrapper state. -/
def stateLive (s : ProcState) : Int := if s.running.isSome then 1 else 0

/-! ## Install logic (`InstallLogic.py`)

`packaging.requirements.Requirement` is an external library; it is modelled
by a parsed record plus an executable parser covering the requirement shapes
the claims quantify over (plain name, version specifier, `extra == '<X>'`
marker).  Marker strings are kept in the serialized form `str(req.marker)`
produces (`extra == "X"`, double quotes). -/

/-- A parsed `packaging` requirement. -/
structure Requirement where
  name : String
  extras : List String
  specifier : String
  marker : Option String
  deriving Repr, DecidableEq

/-- Characters `packaging` accepts in a package name. -/
def isNameChar (c : Char) : Bool :=
  c.isAlphanum || c == '-' || c == '_' || c == '.'

/-- Characters that may appear in a serialized version specifier. -/
def isSpecChar (c : Char) : Bool :=
  c.isAlphanum || c == '.' || c == '>' || c == '<' || c == '=' ||
  c == '!' || c == '~' || c == ',' || c == '*' || c == '+' || c == '-'

/-- Split at the first `;` (requirement part, optional marker part). -/
def splitFirstSemicolon : List Char → List Char × Option (List Char)
  | [] => ([], none)
  | c :: rest =>
    if c == ';' then ([], some rest)
    else
      let (a, b) := splitFirstSemicolon rest
      (c :: a, b)

/-- Parse a marker of the shape `extra == '<X>'` (either quote style) and
return its `packaging` serialization `extra == "<X>"`. -/
def parseExtraMarker (cs : List Char) : Option String :=
  let cs := cs.dropWhile pyIsSpace
  if "extra".toList.isPrefixOf cs then
    match (cs.drop 5).dropWhile pyIsSpace with
    | '=' :: '=' :: rest =>
      match rest.dropWhile pyIsSpace with
      | q :: rest2 =>
        if q == '\'' || q == '"' then
          let v := rest2.takeWhile (fun c => !(c == q))
          match rest2.dropWhile (fun c => !(c == q)) with
          | q2 :: ws =>
            if q2 == q && (ws.dropWhile pyIsSpace).isEmpty then
              some (("extra == \"".toList ++ v ++ "\"".toList).asString)
            else none
          | [] => none
        else none
      | [] => none
    | _ => none
  else none

/-- Model of `packaging.requirements.Requirement(s)` on the shapes the
claims use: whitespace-tolerant name, specifier, optional `extra` marker.
`none` models a raised `InvalidRequirement`. -/
def parseRequirement (s : String) : Option Requirement :=
  let (reqPart, markerPart) := splitFirstSemicolon s.toList
  let r := reqPart.dropWhile pyIsSpace
  let nm := r.takeWhile isNameChar
  let rest := r.dropWhile isNameChar
  if nm.isEmpty then none
  else
    let spec := rest.filter fun c => !pyIsSpace c
    if !spec.all isSpecChar then none
    else
      match markerPart with
      | none => some ⟨nm.asString, [], spec.asString, none⟩
      | some m =>
        (parseExtraMarker m).map fun mv => ⟨nm.asString, [], spec.asString, some mv⟩

/-- Python `str` of a list of strings (repr quoting), for the
`extras = str(extras)` branch. -/
def pyReprStrList (l : List String) : String :=
  "[" ++ joinSepStr ", " (l.map fun s => "'" ++ s ++ "'") ++ "]"

/-- Python `\w` (ASCII): letters, digits, underscore. -/
def isWordChar (c : Char) : Bool := c.isAlphanum || c == '_'

/-- `re.sub(r"\W+", '', s)`: drop every non-word character. -/
def removeNonWord (cs : List Char) : List Char := cs.filter isWordChar

/-- The literal `"extra == "` pattern of `cleanPyPiRequirement`. -/
def extraPattern : List Char := "extra == ".toList

/-- Fuel-bounded scan of `str.replace("extra == ", "")`: at each position,
drop the pattern when it starts there, else keep the character.  The fuel
only forces structural termination; it is always called with enough. -/
def replaceExtraGo : Nat → List Char → List Char
  | fuel + 1, c :: rest =>
    if extraPattern.isPrefixOf (c :: rest) then
      replaceExtraGo fuel ((c :: rest).drop extraPattern.length)
    else
      c :: replaceExtraGo fuel rest
  | _, [] => []
  | 0, s => s

/-- `str.replace("extra == ", "")`: remove every (left-to-right,
non-overlapping) occurrence of the pattern. -/
def replaceExtraPattern (s : List Char) : List Char := replaceExtraGo s.length s

/-- `InstallLogic.cleanPyPiRequirement` after the `Requirement(...)` parse. -/
def cleanPyPiRequirement (req : Requirement) : String :=
  let extras := if req.extras.isEmpty then "" else pyReprStrList req.extras
  let reqMarker := match req.marker with | some m => m | none => "None"
  let extras :=
    if extras == "" && pyStartsWith "extra == " reqMarker then
      "[" ++ (removeNonWord (replaceExtraPattern reqMarker.toList)).asString ++ "]"
    else extras
  req.name ++ extras ++ req.specifier

/-- `InstallLogic.cleanPyPiRequirement` on the raw requirement string. -/
def cleanPyPiRequirementStr (s : String) : Option String :=
  (parseRequirement s).map cleanPyPiRequirement

/-- Environment of `pipInstallSelective`: the declared dependencies of an
installed package (`importlib.metadata.requires`, `none` when metadata gives
no list) and the `needsToInstallRequirement` oracle (which wraps the
installed-version and marker queries of the host environment). -/
structure PipEnv where
  requires : String → Option (List String)
  needsInstall : String → Bool

/-- Side effects recorded by the install model. -/
inductive PipAction where
  | installNoDeps (cmd : String)
  | metaRewrite (pkg : String)
  deriving Repr, DecidableEq

mutual

/-- `InstallLogic.pipInstallSelective`: install the package without
dependencies, read its declared dependencies, rewrite the metadata file,
then per dependency either record it as skipped (requirement string starts
with a skip-list entry) or, when needed, recursively install it.  The
returned list is the skipped requirements of the top call; the action list
is the install log.  `fuel` bounds the recursion depth (Python recursion is
unbounded; every theorem quantifies over sufficient fuel). -/
def pipInstallSelective (env : PipEnv) (packageToInstall installCommand : String)
    (packagesToSkip : List String) :
    Nat → Except PyErr (List String × List PipAction)
  | 0 => .error .recursionError
  | fuel + 1 =>
    match cleanPyPiRequirementStr installCommand with
    | none => .error (.invalidRequirement installCommand)
    | some cleaned =>
      let log0 := [PipAction.installNoDeps (cleaned ++ " --no-deps")]
      match env.requires packageToInstall with
      | none => .ok ([], log0)
      | some [] => .ok ([], log0)
      | some reqs => do
        let (sk, lg) ← pipLoop env packagesToSkip reqs fuel
        .ok (sk, log0 ++ [PipAction.metaRewrite packageToInstall] ++ lg)

/-- The dependency loop of `pipInstallSelective`. -/
def pipLoop (env : PipEnv) (packagesToSkip : List String) :
    List String → Nat → Except PyErr (List String × List PipAction)
  | [], _ => .ok ([], [])
  | r :: rest, fuel =>
    if packagesToSkip.any (fun p => pyStartsWith p r) then do
      let (sk, lg) ← pipLoop env packagesToSkip rest fuel
      .ok (r :: sk, lg)
    else if env.needsInstall r then
      match parseRequirement r with
      | none => .error (.invalidRequirement r)
      | some req => do
        let (_, lg1) ← pipInstallSelective env req.name r packagesToSkip fuel
        let (sk, lg2) ← pipLoop env packagesToSkip rest fuel
        .ok (sk, lg1 ++ lg2)
    else
      pipLoop env packagesToSkip rest fuel

end

/-! ## Settings round trip (`Parameter.toSettings` / `fromSettings`)

`json.dumps`/`json.loads` of the flat parameter dict is modelled at the
data level (a list of key/value pairs in field order); `_PathEncoder` turns
the path into a tagged string object on encode, and the `decodePath` object
hook turns every tagged object back into a path on decode. -/

/-- A stored JSON value (after `json.dumps` with `_PathEncoder`). -/
inductive JStored where
  | str (s : String)
  | int (n : Int)
  | num (q : Rat)
  | bool (b : Bool)
  | pathObj (s : String)
  deriving Repr, DecidableEq

/-- A decoded JSON value (after `json.loads` with the `decodePath` hook,
which replaces every `{"_path": s}` object with `Path(s)`). -/
inductive JValue where
  | str (s : String)
  | int (n : Int)
  | num (q : Rat)
  | bool (b : Bool)
  | path (p : FPath)
  deriving Repr, DecidableEq

/-- `pathlib.Path(s)`: split on `/` and drop empty and `"."` components. -/
def parsePath (s : String) : FPath :=
  (splitOnChar '/' s.toList).filterMap fun g =>
    if g.asString == "" || g.asString == "." then none else some g.asString

/-- The `decodePath` object hook. -/
def decodeHook : JStored → JValue
  | .str s => .str s
  | .int n => .int n
  | .num q => .num q
  | .bool b => .bool b
  | .pathObj s => .path (parsePath s)

namespace Parameter

/-- `Parameter.asDict` serialized with `_PathEncoder` (`asJSon`), in
dataclass field order. -/
def encodeSettings (p : Parameter) : List (String × JStored) :=
  [("folds", .str p.folds),
   ("device", .str p.device),
   ("stepSize", .num p.stepSize),
   ("disableTta", .bool p.disableTta),
   ("nProcessPreprocessing", .int p.nProcessPreprocessing),
   ("nProcessSegmentationExport", .int p.nProcessSegmentationExport),
   ("checkPointName", .str p.checkPointName),
   ("modelPath", .pathObj (pathStr p.modelPath))]

/-- The settings store: one optional serialized dict per key. -/
def Settings := String → Option (List (String × JStored))

/-- `Parameter._defaultSettingsKey`. -/
def defaultSettingsKey : String := "SlicerNNUNet/Parameter"

/-- `Parameter.toSettings`: store the serialized parameter under the key
(default key when empty). -/
def toSettings (p : Parameter) (settings : Settings) (key : String) : Settings :=
  let k := if key == "" then defaultSettingsKey else key
  fun q => if q == k then some p.encodeSettings else settings q

/-- The typed per-field setter of the `parameterNodeWrapper` pack
(`instance.setValue(k, v)`): a JSON value of the wrong type raises
`TypeError` (caught by `fromSettings`), a `Choice`/`WithinRange` validator
violation raises `ValueError`, an unknown name raises `ValueError`. -/
def setValue (p : Parameter) (key : String) (v : JValue) : Except PyErr Parameter :=
  if key == "folds" then
    match v with
    | .str s => .ok { p with folds := s }
    | _ => .error (.typeError "folds")
  else if key == "device" then
    match v with
    | .str s =>
      if s == "cuda" || s == "cpu" || s == "mps" then .ok { p with device := s }
      else .error (.valueError "device")
    | _ => .error (.typeError "device")
  else if key == "stepSize" then
    match v with
    | .num q =>
      if 0 ≤ q && q ≤ 1 then .ok { p with stepSize := q }
      else .error (.valueError "stepSize")
    | _ => .error (.typeError "stepSize")
  else if key == "disableTta" then
    match v with
    | .bool b => .ok { p with disableTta := b }
    | _ => .error (.typeError "disableTta")
  else if key == "nProcessPreprocessing" then
    match v with
    | .int n =>
      if 1 ≤ n && n ≤ 999 then .ok { p with nProcessPreprocessing := n }
      else .error (.valueError "nProcessPreprocessing")
    | _ => .error (.typeError "nProcessPreprocessing")
  else if key == "nProcessSegmentationExport" then
    match v with
    | .int n =>
      if 1 ≤ n && n ≤ 999 then .ok { p with nProcessSegmentationExport := n }
      else .error (.valueError "nProcessSegmentationExport")
    | _ => .error (.typeError "nProcessSegmentationExport")
  else if key == "checkPointName" then
    match v with
    | .str s => .ok { p with checkPointName := s }
    | _ => .error (.typeError "checkPointName")
  else if key == "modelPath" then
    match v with
    | .path fp => .ok { p with modelPath := fp }
    | _ => .error (.typeError "modelPath")
  else
    .error (.valueError ("no parameter named " ++ key))

/-- The `for k, v in val_dict.items(): try setValue except TypeError` loop
of `fromSettings`. -/
def applyEntries : Parameter → List (String × JValue) → Except PyErr Parameter
  | p, [] => .ok p
  | p, (k, v) :: rest =>
    match p.setValue k v with
    | .ok p' => applyEntries p' rest
    | .error (.typeError _) => applyEntries p rest
    | .error e => .error e

/-- `Parameter.fromSettings`: read the stored dict (empty when absent),
start from the defaults and set every present field, skipping entries whose
set raises `TypeError`. -/
def fromSettings (settings : Settings) (key : String) : Except PyErr Parameter :=
  let k := if key == "" then defaultSettingsKey else key
  match settings k with
  | none => .ok {}
  | some entries =>
    applyEntries {} (entries.map fun kv => (kv.1, decodeHook kv.2))

/-- Well-formedness of the components of a `pathlib` path: `parts` entries
are never empty, never `"."`, and never contain a separator. -/
def wfPath (p : FPath) : Bool :=
  p.all fun c => !(c == "") && !(c == ".") && !(c.toList.contains '/')

end Parameter

/-! ## Concrete fixtures

Small concrete model directories and environments, mirroring the fixtures of
`Testing/SegmentationLogicTestCase.py`, used to evaluate the embedded code
on closed inputs. -/

namespace Examples

/-- A well-formed configuration folder path. -/
def goodConfFolder : FPath :=
  ["Dataset111_453CT", "nnUNetTrainer__nnUNetPlans__3d_fullres"]

/-- A `dataset.json` with labels and the default file ending. -/
def goodDatasetJson : DatasetJson :=
  { labels := some [("background", 0), ("Test Label 1", 1)],
    file_ending := some ".nii.gz" }

/-- A valid model directory: marker file plus fold 0 with its checkpoint. -/
def goodFS : FS :=
  { files := [goodConfFolder ++ ["dataset.json"],
              goodConfFolder ++ ["fold_0", "checkpoint_final.pth"]],
    content := fun _ => goodDatasetJson }

/-- Default parameter pointing at the valid model directory. -/
def goodParam : Parameter := { modelPath := goodConfFolder }

/-- Same model directory but requesting the absent fold 5. -/
def fold5Param : Parameter := { modelPath := goodConfFolder, folds := "5" }

/-- A fold list with a non-integer token. -/
def badFoldsParam : Parameter := { modelPath := goodConfFolder, folds := "0,a" }

/-- A dataset folder violating the naming convention. -/
def badNameConf : FPath :=
  ["StringWithoutDS", "nnUNetTrainer__nnUNetPlans__3d_fullres"]

/-- Model directory under the badly named dataset folder (folds and
checkpoints all present). -/
def badNameFS : FS :=
  { files := [badNameConf ++ ["dataset.json"],
              badNameConf ++ ["fold_0", "checkpoint_final.pth"]],
    content := fun _ => goodDatasetJson }

/-- Parameter pointing at the badly named dataset folder. -/
def badNameParam : Parameter := { modelPath := badNameConf }

/-- Segmentation-logic scratch state over the valid parameter. -/
def segState : SegLogicState := { tmpDir := ["tmp"], param := goodParam }

/-- The valid model plus a `.nii.gz` output file in the scratch dir. -/
def outFS : FS :=
  { files := goodFS.files ++ [["tmp", "output", "out.nii.gz"]],
    content := fun _ => goodDatasetJson }

/-- Same files, but the `dataset.json` content has no `labels` entry. -/
def noLabelsFS : FS :=
  { files := outFS.files,
    content := fun _ => { labels := none, file_ending := some ".nrrd" } }

/-- Host segmentation loader returning two generated segments. -/
def hostSeg : FPath → Segmentation :=
  fun _ => [("Segment_1", "Segment_1"), ("Segment_7", "Segment_7")]

/-- Model declaring `.nrrd` outputs; the scratch output dir holds
`out.nrrd` (the fixture of
`test_loads_segmentations_based_on_dataset_file_ending`). -/
def nrrdFS : FS :=
  { files := goodFS.files ++ [["tmp", "output", "out.nrrd"]],
    content := fun _ => { labels := some [("background", 0)],
                          file_ending := some ".nrrd" } }

/-- No marker file anywhere, but an output file is present. -/
def noDatasetFS : FS :=
  { files := [["tmp", "output", "out.nii.gz"]],
    content := fun _ => goodDatasetJson }

/-- A pip environment where `nnunetv2` declares three dependencies. -/
def pipEnvEx : PipEnv :=
  { requires := fun p =>
      if p == "nnunetv2" then some ["torch>=2.1.2", "numpy", "SimpleITK>=2.2.1"]
      else some [],
    needsInstall := fun _ => true }

/-- A fully customised parameter for the settings round trip. -/
def roundTripParam : Parameter :=
  { folds := "0,1,2", device := "cpu", stepSize := ⟨21, 50, by decide, by decide⟩,
    disableTta := false, nProcessPreprocessing := 4,
    nProcessSegmentationExport := 2, checkPointName := "custom",
    modelPath := ["Models", "nnunet"] }

/-- An empty settings store. -/
def emptySettings : Parameter.Settings := fun _ => none

/-- A torch runtime without cuda or mps. -/
def cpuOnlyEnv : TorchEnv := { cudaAvailable := false, mpsAvailable := false }

end Examples

/-! ## Generic helper lemmas -/

@[simp]
theorem except_bind_ok {ε α β : Type} (a : α) (f : α → Except ε β) :
    (Except.ok a >>= f) = f a := rfl

@[simp]
theorem except_bind_error {ε α β : Type} (e : ε) (f : α → Except ε β) :
    ((Except.error e : Except ε α) >>= f) = (Except.error e : Except ε β) := rfl

/-! ## C10: fold-string parse errors escape `isValid` and `asArgList` -/

theorem parseFoldTokens_error_valueError (toks : List (List Char)) (e : PyErr)
    (h : Parameter.parseFoldTokens toks = .error e) : ∃ m, e = PyErr.valueError m := by
  induction toks with
  | nil => simp [Parameter.parseFoldTokens] at h
  | cons t ts ih =>
    rw [Parameter.parseFoldTokens] at h
    cases hpt : pythonInt t.asString with
    | some n =>
      rw [hpt] at h
      cases hts : Parameter.parseFoldTokens ts with
      | ok l => rw [hts] at h; simp [Except.map] at h
      | error e' =>
        rw [hts] at h
        simp [Except.map] at h
        subst h
        exact ih hts
    | none =>
      rw [hpt] at h
      simp at h
      exact ⟨_, h.symm⟩

theorem foldsAsList_error_valueError (p : Parameter) (e : PyErr)
    (h : p.foldsAsList = .error e) : ∃ m, e = PyErr.valueError m := by
  unfold Parameter.foldsAsList at h
  split at h
  · exact absurd h (by simp)
  · exact parseFoldTokens_error_valueError _ e h

/-- C10: for every configuration whose model path contains a `dataset.json`
marker file but whose fold string has a token that is not a Python integer,
`isValid` raises a `ValueError` instead of returning a `(false, reason)`
pair, and `asArgList` reaches the same raised error. -/
theorem c10_invalid_fold_token_raises (p : Parameter) (fs : FS) (env : TorchEnv)
    (inDir outDir : FPath) (e : PyErr)
    (hds : (p.datasetFilePath fs).isSome = true)
    (hf : p.foldsAsList = .error e) :
    (∃ m, e = PyErr.valueError m) ∧ p.isValid fs = Except.error e ∧
      p.asArgList env fs inDir outDir = Except.error e := by
  obtain ⟨dsf, hdsf⟩ := Option.isSome_iff_exists.mp hds
  have hval : p.isValid fs = Except.error e := by
    unfold Parameter.isValid
    rw [hdsf]
    simp [hf]
  refine ⟨foldsAsList_error_valueError p e hf, hval, ?_⟩
  unfold Parameter.asArgList
  simp [hval]

theorem c10_invalid_fold_token_raises_witness :
    Examples.badFoldsParam.isValid Examples.goodFS =
        Except.error (PyErr.valueError "invalid literal for int() with base 10: a") ∧
      Examples.badFoldsParam.asArgList Examples.cpuOnlyEnv Examples.goodFS []
        [] = Except.error (PyErr.valueError "invalid literal for int() with base 10: a") := by
  have h := c10_invalid_fold_token_raises Examples.badFoldsParam Examples.goodFS
    Examples.cpuOnlyEnv [] []
    (PyErr.valueError "invalid literal for int() with base 10: a")
    (by rfl) (by rfl)
  exact ⟨h.2.1, h.2.2⟩

/-! ## C1: at most one inference process runs at a time -/

theorem liveAfter_append (init : Int) (a b : List ProcEvent) :
    liveAfter init (a ++ b) = liveAfter (liveAfter init a) b := by
  simp [liveAfter, List.foldl_append]

theorem isPre_append_split {α : Type} {pre a b : List α} (h : pre <+: a ++ b) :
    pre <+: a ∨ ∃ q, pre = a ++ q ∧ q <+: b := by
  induction a generalizing pre with
  | nil => exact Or.inr ⟨pre, rfl, h⟩
  | cons x a' ih =>
    cases pre with
    | nil => exact Or.inl List.nil_prefix
    | cons y pre' =>
      rw [List.cons_append, List.cons_prefix_cons] at h
      obtain ⟨rfl, h'⟩ := h
      rcases ih h' with h1 | ⟨q, rfl, hq⟩
      · exact Or.inl (List.cons_prefix_cons.mpr ⟨rfl, h1⟩)
      · exact Or.inr ⟨q, by simp, hq⟩

theorem execOp_live (s : ProcState) (op : LogicOp) :
    liveAfter (stateLive s) (execOp s op).2 = stateLive (execOp s op).1 ∧
    ∀ pre, pre <+: (execOp s op).2 →
      0 ≤ liveAfter (stateLive s) pre ∧ liveAfter (stateLive s) pre ≤ 1 := by
  have hcases :
      ∀ evs : List ProcEvent, evs = (execOp s op).2 →
      liveAfter (stateLive s) (execOp s op).2 = stateLive (execOp s op).1 ∧
      ∀ pre, pre <+: (execOp s op).2 →
        0 ≤ liveAfter (stateLive s) pre ∧ liveAfter (stateLive s) pre ≤ 1 := by
    intro evs _
    cases op with
    | startSeg prepOk =>
      cases prepOk with
      | false =>
        cases hrun : s.running <;>
          · constructor
            · simp [execOp, startSegmentation, stateLive, hrun, liveAfter]
            · intro pre hpre
              simp [execOp, startSegmentation] at hpre
              rcases List.prefix_cons_iff.mp hpre with h0 | ⟨q, rfl, hq⟩
              · simp [h0, liveAfter, stateLive, hrun]
              · have := List.eq_nil_of_prefix_nil hq
                subst this
                simp [liveAfter, stateLive, hrun]
      | true =>
        cases hrun : s.running with
        | none =>
          constructor
          · simp [execOp, startSegmentation, Process.start, Process.stop, hrun,
              stateLive, liveAfter]
          · intro pre hpre
            simp [execOp, startSegmentation, Process.start, Process.stop, hrun] at hpre
            rcases List.prefix_cons_iff.mp hpre with h0 | ⟨q, rfl, hq⟩
            · simp [h0, liveAfter, stateLive, hrun]
            · have := List.eq_nil_of_prefix_nil hq
              subst this
              simp [liveAfter, stateLive, hrun]
        | some pid =>
          constructor
          · simp [execOp, startSegmentation, Process.start, Process.stop, hrun,
              stateLive, liveAfter]
          · intro pre hpre
            simp [execOp, startSegmentation, Process.start, Process.stop, hrun] at hpre
            rcases List.prefix_cons_iff.mp hpre with h0 | ⟨q, rfl, hq⟩
            · simp [h0, liveAfter, stateLive, hrun]
            · rcases List.prefix_cons_iff.mp hq with h1 | ⟨q', rfl, hq'⟩
              · simp [h1, liveAfter, stateLive, hrun]
              · have := List.eq_nil_of_prefix_nil hq'
                subst this
                simp [liveAfter, stateLive, hrun]
    | stopSeg =>
      cases hrun : s.running with
      | none =>
        constructor
        · simp [execOp, Process.stop, hrun, stateLive, liveAfter]
        · intro pre hpre
          simp [execOp, Process.stop, hrun] at hpre
          subst hpre
          simp [liveAfter, stateLive, hrun]
      | some pid =>
        constructor
        · simp [execOp, Process.stop, hrun, stateLive, liveAfter]
        · intro pre hpre
          simp [execOp, Process.stop, hrun] at hpre
          rcases List.prefix_cons_iff.mp hpre with h0 | ⟨q, rfl, hq⟩
          · simp [h0, liveAfter, stateLive, hrun]
          · have := List.eq_nil_of_prefix_nil hq
            subst this
            simp [liveAfter, stateLive, hrun]
    | procFinished =>
      cases hrun : s.running with
      | none =>
        constructor
        · simp [execOp, Process.finish, hrun, stateLive, liveAfter]
        · intro pre hpre
          simp [execOp, Process.finish, hrun] at hpre
          subst hpre
          simp [liveAfter, stateLive, hrun]
      | some pid =>
        constructor
        · simp [execOp, Process.finish, hrun, stateLive, liveAfter]
        · intro pre hpre
          simp [execOp, Process.finish, hrun] at hpre
          rcases List.prefix_cons_iff.mp hpre with h0 | ⟨q, rfl, hq⟩
          · simp [h0, liveAfter, stateLive, hrun]
          · have := List.eq_nil_of_prefix_nil hq
            subst this
            simp [liveAfter, stateLive, hrun]
  exact hcases (execOp s op).2 rfl

theorem runOps_live_bounded (s : ProcState) (ops : List LogicOp) :
    ∀ pre, pre <+: runOps s ops →
      0 ≤ liveAfter (stateLive s) pre ∧ liveAfter (stateLive s) pre ≤ 1 := by
  induction ops generalizing s with
  | nil =>
    intro pre h
    rw [runOps] at h
    have := List.eq_nil_of_prefix_nil h
    subst this
    unfold liveAfter stateLive
    split <;> simp
  | cons op ops ih =>
    intro pre h
    rw [runOps] at h
    rcases isPre_append_split h with h1 | ⟨q, rfl, hq⟩
    · exact (execOp_live s op).2 pre h1
    · rw [liveAfter_append, (execOp_live s op).1]
      exact ih (execOp s op).1 q hq

/-- C1: every start of a new inference run first stops (kills) any prior
running child before spawning the new one — `Process.start` emits a kill
for the running child ahead of the spawn, `startSegmentation` touches the
process only when scratch-dir preparation succeeded — and along any
sequence of start/stop/finish operations the number of live child
processes never exceeds one at any point of the event trace, so runs never
overlap. -/
theorem c1_single_inference_process (s : ProcState) (ops : List LogicOp) :
    ((Process.start s).2 =
      match s.running with
      | some pid => [ProcEvent.killed pid, ProcEvent.spawned s.nextPid]
      | none => [ProcEvent.spawned s.nextPid]) ∧
    startSegmentation true s = Process.start s ∧
    startSegmentation false s = (s, [ProcEvent.errored]) ∧
    (∀ pre, pre <+: runOps s ops →
      0 ≤ liveAfter (stateLive s) pre ∧ liveAfter (stateLive s) pre ≤ 1) := by
  refine ⟨?_, rfl, rfl, runOps_live_bounded s ops⟩
  cases hrun : s.running <;> simp [Process.start, Process.stop, hrun]

theorem c1_single_inference_process_witness :
    0 ≤ liveAfter (stateLive { running := some 3, nextPid := 4 })
        [ProcEvent.killed 3, ProcEvent.spawned 4] ∧
      liveAfter (stateLive { running := some 3, nextPid := 4 })
        [ProcEvent.killed 3, ProcEvent.spawned 4] ≤ 1 :=
  (c1_single_inference_process { running := some 3, nextPid := 4 }
    [LogicOp.startSeg true, LogicOp.procFinished]).2.2.2
    [ProcEvent.killed 3, ProcEvent.spawned 4] (by decide)

/-! ## C8: device fallback to cpu without touching the configuration -/

/-- C8: when the configured compute device is unavailable in the current
torch runtime, a successful `asArgList` emits `"cpu"` as the `-device`
argument while the stored configuration is returned unchanged in every
field. -/
theorem c8_device_fallback (p : Parameter) (env : TorchEnv) (fs : FS)
    (inDir outDir : FPath) (args : List Arg) (p' : Parameter)
    (hun : p.isSelectedDeviceAvailable env = false)
    (hok : p.asArgList env fs inDir outDir = Except.ok (args, p')) :
    p' = p ∧ [Arg.str "-device", Arg.str "cpu"] <:+: args := by
  have hdev : p.getDevice env = "cpu" := by
    unfold Parameter.getDevice
    rw [hun]
    simp
  unfold Parameter.asArgList at hok
  cases hval : p.isValid fs with
  | error e => rw [hval] at hok; exact absurd hok (by simp)
  | ok r =>
    rw [hval] at hok
    simp only [except_bind_ok] at hok
    split at hok
    · -- validation succeeded
      split at hok
      · exact absurd hok (by simp)
      · rename_i dsf hds
        split at hok
        · rename_i tr plan conf heq
          cases hfl : p.foldsAsList with
          | error e => rw [hfl] at hok; exact absurd hok (by simp)
          | ok fl =>
            rw [hfl] at hok
            simp only [except_bind_ok] at hok
            split at hok
            · simp only [Except.ok.injEq, Prod.mk.injEq] at hok
              obtain ⟨hargs, hp⟩ := hok
              subst hp
              refine ⟨rfl, ?_⟩
              rw [← hargs, hdev]
              exact ⟨[Arg.str "-i", Arg.str (pathStr inDir),
                  Arg.str "-o", Arg.str (pathStr outDir),
                  Arg.str "-d", Arg.str (pathName (pathParent (pathParent dsf))),
                  Arg.str "-tr", Arg.str tr, Arg.str "-p", Arg.str plan,
                  Arg.str "-c", Arg.str conf, Arg.str "-f"] ++
                    fl.map (fun f => Arg.str (toString f)) ++
                    [Arg.str "-npp", Arg.int p.nProcessPreprocessing,
                     Arg.str "-nps", Arg.int p.nProcessSegmentationExport,
                     Arg.str "-step_size", Arg.num p.stepSize],
                  [Arg.str "-chk", Arg.str p.getCheckpointName,
                   Arg.str "--disable_tta"], by simp⟩
            · simp only [Except.ok.injEq, Prod.mk.injEq] at hok
              obtain ⟨hargs, hp⟩ := hok
              subst hp
              refine ⟨rfl, ?_⟩
              rw [← hargs, hdev]
              exact ⟨[Arg.str "-i", Arg.str (pathStr inDir),
                  Arg.str "-o", Arg.str (pathStr outDir),
                  Arg.str "-d", Arg.str (pathName (pathParent (pathParent dsf))),
                  Arg.str "-tr", Arg.str tr, Arg.str "-p", Arg.str plan,
                  Arg.str "-c", Arg.str conf, Arg.str "-f"] ++
                    fl.map (fun f => Arg.str (toString f)) ++
                    [Arg.str "-npp", Arg.int p.nProcessPreprocessing,
                     Arg.str "-nps", Arg.int p.nProcessSegmentationExport,
                     Arg.str "-step_size", Arg.num p.stepSize],
                  [Arg.str "-chk", Arg.str p.getCheckpointName], by simp⟩
        · exact absurd hok (by simp)
    · exact absurd hok (by simp)

theorem c8_device_fallback_witness :
    ∃ args : List Arg,
      Examples.goodParam.asArgList Examples.cpuOnlyEnv Examples.goodFS
          ["t", "input"] ["t", "output"] = Except.ok (args, Examples.goodParam) ∧
        [Arg.str "-device", Arg.str "cpu"] <:+: args := by
  have hok : Examples.goodParam.asArgList Examples.cpuOnlyEnv Examples.goodFS
      ["t", "input"] ["t", "output"] = Except.ok
        ([Arg.str "-i", Arg.str "t/input", Arg.str "-o", Arg.str "t/output",
          Arg.str "-d", Arg.str "Dataset111_453CT",
          Arg.str "-tr", Arg.str "nnUNetTrainer", Arg.str "-p", Arg.str "nnUNetPlans",
          Arg.str "-c", Arg.str "3d_fullres", Arg.str "-f", Arg.str "0",
          Arg.str "-npp", Arg.int 1, Arg.str "-nps", Arg.int 1,
          Arg.str "-step_size", Arg.num ⟨1, 2, by decide, by decide⟩,
          Arg.str "-device", Arg.str "cpu",
          Arg.str "-chk", Arg.str "checkpoint_final.pth",
          Arg.str "--disable_tta"], Examples.goodParam) := by rfl
  have h := c8_device_fallback Examples.goodParam Examples.cpuOnlyEnv
    Examples.goodFS ["t", "input"] ["t", "output"] _ Examples.goodParam
    (by rfl) hok
  exact ⟨_, hok, h.2⟩

/-! ## C3: tolerance of missing label dictionaries, and segment renaming -/

theorem find?_set (seg : Segmentation) (k v sid : String) :
    (setSegmentName seg k v).find? (fun e => e.1 == sid) =
      (seg.find? (fun e => e.1 == sid)).map
        (fun e => if e.1 == k then (e.1, v) else e) := by
  induction seg with
  | nil => rfl
  | cons e rest ih =>
    simp only [setSegmentName, List.map_cons, List.find?_cons]
    have hinv : ((if e.1 == k then (e.1, v) else e).1 == sid) = (e.1 == sid) := by
      by_cases h : e.1 = k <;> simp [h]
    rw [hinv]
    cases he : (e.1 == sid) with
    | true => simp
    | false => simpa [setSegmentName] using ih

theorem segmentName_set (seg : Segmentation) (k v sid : String) :
    segmentName (setSegmentName seg k v) sid =
      if k = sid then (segmentName seg sid).map (fun _ => v)
      else segmentName seg sid := by
  unfold segmentName
  rw [find?_set]
  cases hf : seg.find? (fun e => e.1 == sid) with
  | none =>
    simp only [Option.map_none']
    split <;> rfl
  | some e =>
    have hes : e.1 = sid := by simpa using List.find?_some hf
    by_cases hks : k = sid
    · have hek : e.1 = k := hks ▸ hes
      simp [hek, hks]
    · have hek : ¬(e.1 = k) := fun h => hks (h.symm.trans hes)
      simp [hek, hks]

theorem segmentName_applyLabels (L : List (String × String)) (seg : Segmentation)
    (sid : String) (hnd : (L.map Prod.fst).Nodup) :
    segmentName (applyLabels L seg) sid =
      match L.find? (fun kv => kv.1 == sid) with
      | some kv => (segmentName seg sid).map (fun _ => kv.2)
      | none => segmentName seg sid := by
  induction L generalizing seg with
  | nil => simp [applyLabels]
  | cons kv rest ih =>
    have hnd' : (rest.map Prod.fst).Nodup := (List.nodup_cons.mp hnd).2
    have hk_not : kv.1 ∉ rest.map Prod.fst := (List.nodup_cons.mp hnd).1
    have hstep : applyLabels (kv :: rest) seg =
        applyLabels rest (setSegmentName seg kv.1 kv.2) := by
      simp [applyLabels]
    rw [hstep, ih _ hnd']
    by_cases hks : kv.1 = sid
    · have hrest : rest.find? (fun x => x.1 == sid) = none := by
        rw [List.find?_eq_none]
        intro x hx
        simp only [beq_iff_eq]
        intro hx1
        exact hk_not (hks ▸ hx1 ▸ List.mem_map_of_mem Prod.fst hx)
      rw [hrest]
      simp only [List.find?_cons, show (kv.1 == sid) = true by simp [hks], cond_true]
      rw [segmentName_set, if_pos hks]
    · simp only [List.find?_cons, show (kv.1 == sid) = false by simp [hks], cond_false]
      rw [segmentName_set, if_neg hks]

theorem readSegmentIds_eq (p : Parameter) (fs : FS) (dsf : FPath)
    (hds : p.datasetFilePath fs = some dsf) :
    p.readSegmentIdsAndLabelsFromDatasetFile fs =
      match (fs.content dsf).labels with
      | none => Except.error (PyErr.attributeError "'NoneType' object has no attribute 'items'")
      | some labels =>
        Except.ok (some (labels.map fun kv => ("Segment_" ++ toString kv.2, kv.1))) := by
  unfold Parameter.readSegmentIdsAndLabelsFromDatasetFile
  rw [hds]

theorem renameSegments_eq (st : SegLogicState) (fs : FS) (seg : Segmentation)
    (dsf : FPath) (hds : st.param.datasetFilePath fs = some dsf) :
    renameSegments st fs seg =
      match (fs.content dsf).labels with
      | none => Except.error (PyErr.attributeError "'NoneType' object has no attribute 'items'")
      | some L =>
        Except.ok (applyLabels (L.map fun kv => ("Segment_" ++ toString kv.2, kv.1)) seg) := by
  unfold renameSegments
  rw [readSegmentIds_eq st.param fs dsf hds]
  cases (fs.content dsf).labels <;> rfl

theorem loadSegmentation_eq_of_out (st : SegLogicState) (fs : FS)
    (host : FPath → Segmentation) (f : FPath) (hout : st.outFile fs = some f) :
    loadSegmentation st fs host = renameSegments st fs (host f) := by
  unfold loadSegmentation
  rw [hout]

/-- C3 counterexample: a model directory whose `dataset.json` exists but
lacks a `labels` mapping makes `loadSegmentation` raise an
`AttributeError` (from `None.items()`) rather than succeed with generated
segment names, refuting the claim for the "lacks a labels mapping" case. -/
theorem c3_labels_missing_crashes_counterexample :
    loadSegmentation Examples.segState Examples.noLabelsFS Examples.hostSeg =
      Except.error (PyErr.attributeError "'NoneType' object has no attribute 'items'") := by
  rfl

/-- C3 (amended): a missing marker file is tolerated — with no
`dataset.json` found, `loadSegmentation` succeeds and every segment keeps
its generated name; when the marker file exists but has no `labels`
mapping, `loadSegmentation` raises `AttributeError`; when a `labels`
mapping is present, each segment whose generated id matches a label entry
is renamed to the human-readable name and segments without a matching id
keep their generated name. -/
theorem c3_rename_tolerates_only_missing_marker (st : SegLogicState) (fs : FS)
    (host : FPath → Segmentation) (f : FPath)
    (hout : st.outFile fs = some f) :
    (st.param.datasetFilePath fs = none →
      loadSegmentation st fs host = Except.ok (host f)) ∧
    (∀ dsf, st.param.datasetFilePath fs = some dsf →
      ((fs.content dsf).labels = none →
        loadSegmentation st fs host =
          Except.error (PyErr.attributeError "'NoneType' object has no attribute 'items'")) ∧
      (∀ L, (fs.content dsf).labels = some L →
        ∀ pairs, pairs = L.map (fun kv => ("Segment_" ++ toString kv.2, kv.1)) →
        (pairs.map Prod.fst).Nodup →
        loadSegmentation st fs host = Except.ok (applyLabels pairs (host f)) ∧
        ∀ sid, segmentName (applyLabels pairs (host f)) sid =
          match pairs.find? (fun kv => kv.1 == sid) with
          | some kv => (segmentName (host f) sid).map (fun _ => kv.2)
          | none => segmentName (host f) sid)) := by
  refine ⟨?_, ?_⟩
  · intro hds
    rw [loadSegmentation_eq_of_out st fs host f hout]
    unfold renameSegments Parameter.readSegmentIdsAndLabelsFromDatasetFile
    rw [hds]
    rfl
  · intro dsf hds
    refine ⟨?_, ?_⟩
    · intro hlab
      rw [loadSegmentation_eq_of_out st fs host f hout,
        renameSegments_eq st fs (host f) dsf hds, hlab]
    · intro L hlab pairs hpairs hnd
      subst hpairs
      refine ⟨?_, ?_⟩
      · rw [loadSegmentation_eq_of_out st fs host f hout,
          renameSegments_eq st fs (host f) dsf hds, hlab]
      · intro sid
        exact segmentName_applyLabels _ (host f) sid hnd

theorem c3_rename_tolerates_only_missing_marker_witness :
    loadSegmentation Examples.segState Examples.outFS Examples.hostSeg =
      Except.ok (applyLabels
        [("Segment_0", "background"), ("Segment_1", "Test Label 1")]
        (Examples.hostSeg ["tmp", "output", "out.nii.gz"])) ∧
    segmentName (applyLabels
        [("Segment_0", "background"), ("Segment_1", "Test Label 1")]
        (Examples.hostSeg ["tmp", "output", "out.nii.gz"])) "Segment_7" =
      some "Segment_7" := by
  have h := c3_rename_tolerates_only_missing_marker Examples.segState Examples.outFS
    Examples.hostSeg ["tmp", "output", "out.nii.gz"] (by rfl)
  have h2 := (h.2 (Examples.goodConfFolder ++ ["dataset.json"]) (by rfl)).2
    [("background", 0), ("Test Label 1", 1)] (by rfl)
    [("Segment_0", "background"), ("Segment_1", "Test Label 1")] (by rfl) (by decide)
  refine ⟨h2.1, ?_⟩
  rw [h2.2 "Segment_7"]
  rfl

/-! ## C6: settings round trip -/

theorem splitOnChar_ne_nil (sep : Char) (cs : List Char) :
    splitOnChar sep cs ≠ [] := by
  induction cs with
  | nil => simp [splitOnChar]
  | cons c rest ih =>
    rw [splitOnChar]
    cases h : splitOnChar sep rest with
    | nil => simp
    | cons g gs =>
      show ¬(if (c == sep) = true then [] :: g :: gs else (c :: g) :: gs) = []
      split <;> simp

theorem splitOnChar_no_sep (sep : Char) (cs : List Char)
    (h : ∀ c ∈ cs, ¬(c = sep)) : splitOnChar sep cs = [cs] := by
  induction cs with
  | nil => rfl
  | cons c rest ih =>
    have hc : (c == sep) = false := by
      simpa using h c (List.mem_cons_self c rest)
    rw [splitOnChar, ih fun x hx => h x (List.mem_cons_of_mem c hx)]
    simp [hc]

theorem splitOnChar_append_sep (sep : Char) (xs ys : List Char)
    (h : ∀ c ∈ xs, ¬(c = sep)) :
    splitOnChar sep (xs ++ sep :: ys) = xs :: splitOnChar sep ys := by
  induction xs with
  | nil =>
    rw [List.nil_append, splitOnChar]
    cases hys : splitOnChar sep ys with
    | nil => exact absurd hys (splitOnChar_ne_nil sep ys)
    | cons g gs => simp
  | cons x xs' ih =>
    have hc : (x == sep) = false := by
      simpa using h x (List.mem_cons_self x xs')
    rw [List.cons_append, splitOnChar,
      ih fun c hc => h c (List.mem_cons_of_mem x hc)]
    simp [hc]

theorem joinSplit (p : List String) (hp : p ≠ [])
    (hwf : ∀ c ∈ p, ¬('/' ∈ c.data)) :
    splitOnChar '/' (joinSepStr "/" p).data = p.map String.data := by
  induction p with
  | nil => exact absurd rfl hp
  | cons a rest ih =>
    cases rest with
    | nil =>
      show splitOnChar '/' a.data = [a.data]
      exact splitOnChar_no_sep '/' a.data fun c hc hcs =>
        hwf a (List.mem_cons_self a []) (hcs ▸ hc)
    | cons b rest' =>
      have hdata : (joinSepStr "/" (a :: b :: rest')).data =
          a.data ++ '/' :: (joinSepStr "/" (b :: rest')).data := by
        show (a ++ "/" ++ joinSepStr "/" (b :: rest')).data = _
        rw [String.data_append, String.data_append]
        simp
      rw [hdata,
        splitOnChar_append_sep '/' a.data _
          (fun c hc hcs => hwf a (List.mem_cons_self a _) (hcs ▸ hc)),
        ih (by simp) fun c hc => hwf c (List.mem_cons_of_mem a hc)]
      rfl

theorem filterMapKeep (l : List String)
    (h : ∀ c ∈ l, ¬(c = "") ∧ ¬(c = ".")) :
    l.filterMap (fun c => if c == "" || c == "." then none else some c) = l := by
  induction l with
  | nil => rfl
  | cons c rest ih =>
    rw [List.filterMap_cons]
    rw [if_neg (by
      obtain ⟨h1, h2⟩ := h c (List.mem_cons_self c rest)
      simp [h1, h2])]
    rw [ih fun x hx => h x (List.mem_cons_of_mem c hx)]

theorem parsePath_pathStr (p : FPath) (hwf : Parameter.wfPath p = true) :
    parsePath (pathStr p) = p := by
  cases p with
  | nil => rfl
  | cons a rest =>
    have hwf' : ∀ c ∈ a :: rest, ¬(c = "") ∧ ¬(c = ".") ∧ ¬('/' ∈ c.data) := by
      intro c hc
      have := (List.all_eq_true.mp hwf) c hc
      simp only [Bool.and_eq_true, Bool.not_eq_true', beq_eq_false_iff_ne, ne_eq] at this
      exact ⟨this.1.1, this.1.2, by simpa [List.contains] using this.2⟩
    unfold parsePath pathStr
    rw [if_neg (by simp)]
    show (splitOnChar '/' (joinSepStr "/" (a :: rest)).data).filterMap _ = _
    rw [joinSplit (a :: rest) (by simp) fun c hc => (hwf' c hc).2.2]
    rw [List.filterMap_map]
    have heach : ∀ c : String,
        ((fun g : List Char =>
            if g.asString == "" || g.asString == "." then none
            else some g.asString) ∘ String.data) c =
          (fun c : String => if c == "" || c == "." then none else some c) c := by
      intro c
      show (if c.data.asString == "" || c.data.asString == "." then none
        else some c.data.asString) = _
      rw [show c.data.asString = c from String.asString_toList c]
    rw [funext heach]
    exact filterMapKeep (a :: rest) fun c hc => ⟨(hwf' c hc).1, (hwf' c hc).2.1⟩

/-- C6: serializing a `Parameter` to settings and deserializing it back
(`toSettings` then `fromSettings` on the same store and key) reproduces a
value equal to the original in every field, including the filesystem path
field. -/
theorem c6_settings_round_trip (p : Parameter) (settings : Parameter.Settings)
    (key : String)
    (hwf : Parameter.wfPath p.modelPath = true)
    (hdev : p.device = "cuda" ∨ p.device = "cpu" ∨ p.device = "mps")
    (hstep : 0 ≤ p.stepSize ∧ p.stepSize ≤ 1)
    (hnpp : 1 ≤ p.nProcessPreprocessing ∧ p.nProcessPreprocessing ≤ 999)
    (hnps : 1 ≤ p.nProcessSegmentationExport ∧ p.nProcessSegmentationExport ≤ 999) :
    Parameter.fromSettings (p.toSettings settings key) key = Except.ok p := by
  obtain ⟨f, d, q, t, n1, n2, ck, mp⟩ := p
  have hmp : parsePath (pathStr mp) = mp := parsePath_pathStr mp hwf
  unfold Parameter.fromSettings Parameter.toSettings Parameter.encodeSettings
  simp only [beq_self_eq_true, if_true]
  rcases hdev with h | h | h <;>
    subst h <;>
    simp [Parameter.applyEntries, Parameter.setValue, decodeHook, hmp,
      hstep.1, hstep.2, hnpp.1, hnpp.2, hnps.1, hnps.2]

theorem c6_settings_round_trip_witness :
    Parameter.fromSettings
        (Examples.roundTripParam.toSettings Examples.emptySettings "")
        "" = Except.ok Examples.roundTripParam := by
  exact c6_settings_round_trip Examples.roundTripParam Examples.emptySettings ""
    (by decide) (Or.inr (Or.inl rfl)) (by decide) (by decide) (by decide)

/-! ## C7: requirement-string normalization -/

theorem replaceExtraGo_step (fuel : Nat) (c : Char) (rest : List Char) :
    replaceExtraGo (fuel + 1) (c :: rest) =
      if extraPattern.isPrefixOf (c :: rest) then
        replaceExtraGo fuel ((c :: rest).drop extraPattern.length)
      else
        c :: replaceExtraGo fuel rest := rfl

theorem replaceExtraGo_fuel_irrel (f1 : Nat) :
    ∀ s : List Char, ∀ f2 : Nat, s.length ≤ f1 → s.length ≤ f2 →
      replaceExtraGo f1 s = replaceExtraGo f2 s := by
  induction f1 with
  | zero =>
    intro s f2 h1 _
    have hs : s = [] := List.eq_nil_of_length_eq_zero (Nat.le_zero.mp h1)
    subst hs
    cases f2 <;> rfl
  | succ f1 ih =>
    intro s f2 h1 h2
    cases s with
    | nil => cases f2 <;> rfl
    | cons c rest =>
      cases f2 with
      | zero => exact absurd h2 (by simp)
      | succ f2 =>
        rw [replaceExtraGo_step, replaceExtraGo_step]
        have hep : extraPattern.length = 9 := by decide
        by_cases hp : extraPattern.isPrefixOf (c :: rest) = true
        · rw [if_pos hp, if_pos hp]
          apply ih
          · simp only [List.length_drop, List.length_cons, hep] at *
            omega
          · simp only [List.length_drop, List.length_cons, hep] at *
            omega
        · rw [if_neg hp, if_neg hp]
          have hl1 : rest.length ≤ f1 := by
            simp only [List.length_cons] at h1
            omega
          have hl2 : rest.length ≤ f2 := by
            simp only [List.length_cons] at h2
            omega
          rw [ih rest f2 hl1 hl2]

theorem replaceExtra_left (rest : List Char) :
    replaceExtraPattern (extraPattern ++ rest) = replaceExtraPattern rest := by
  cases hx : extraPattern ++ rest with
  | nil => exact absurd hx (by simp [extraPattern])
  | cons c cs =>
    have hlen : (extraPattern ++ rest).length = cs.length + 1 := by
      rw [hx]
      rfl
    have hcs : cs.length = rest.length + 8 := by
      have : (extraPattern ++ rest).length = rest.length + 9 := by
        simp [extraPattern]
      omega
    have hp : extraPattern.isPrefixOf (c :: cs) = true := by
      apply List.isPrefixOf_iff_prefix.mpr
      rw [← hx]
      exact List.prefix_append _ _
    unfold replaceExtraPattern
    rw [List.length_cons, replaceExtraGo_step, if_pos hp]
    have hdrop : (c :: cs).drop extraPattern.length = rest := by
      rw [← hx]
      exact List.drop_left _ _
    rw [hdrop]
    exact replaceExtraGo_fuel_irrel cs.length rest rest.length
      (by omega) (Nat.le.refl)

theorem replaceExtraGo_no_space (fuel : Nat) :
    ∀ s : List Char, s.length ≤ fuel → ' ' ∉ s → replaceExtraGo fuel s = s := by
  induction fuel with
  | zero =>
    intro s h1 _
    have hs : s = [] := List.eq_nil_of_length_eq_zero (Nat.le_zero.mp h1)
    subst hs
    rfl
  | succ fuel ih =>
    intro s h1 h2
    cases s with
    | nil => rfl
    | cons c rest =>
      rw [replaceExtraGo_step]
      have hp : ¬(extraPattern.isPrefixOf (c :: rest) = true) := by
        intro hpre
        exact h2 (((List.isPrefixOf_iff_prefix.mp hpre).sublist).subset
          (by decide : ' ' ∈ extraPattern))
      rw [if_neg hp]
      rw [ih rest (by simp only [List.length_cons] at h1; omega)
        fun hm => h2 (List.mem_cons_of_mem c hm)]

theorem replaceExtra_no_space (s : List Char) (h : ' ' ∉ s) :
    replaceExtraPattern s = s :=
  replaceExtraGo_no_space s.length s (Nat.le.refl) h

theorem removeNonWord_quoted (X : List Char) (hX : ∀ c ∈ X, isWordChar c = true) :
    removeNonWord ('"' :: X ++ ['"']) = X := by
  have hq : isWordChar '"' = false := by decide
  unfold removeNonWord
  simp [List.filter_cons, hq, List.filter_append, List.filter_eq_self.mpr hX]

/-- C7: normalization rewrites the extras-in-marker shape into
bracketed-extra syntax and strips whitespace: every requirement whose
`packaging` parse is a bare name with the marker `extra == '<X>'` (marker
serialized as `extra == "<X>"`) cleans to `name[X]<specifier>` — so
`pkg ; extra == 'X'` yields `pkg[X]` — and the repository's own test
vectors evaluate accordingly, including whitespace stripping of
`" nibabel >=2.3.0 "` to `"nibabel>=2.3.0"`. -/
theorem c7_clean_requirement (pkg X spec : String) (req : Requirement)
    (hreq : req = ⟨pkg, [], spec, some ("extra == \"" ++ X ++ "\"")⟩)
    (hX : ∀ c ∈ X.data, isWordChar c = true) :
    cleanPyPiRequirement req = pkg ++ "[" ++ X ++ "]" ++ spec ∧
    cleanPyPiRequirementStr "ruff ; extra == 'dev'" = some "ruff[dev]" ∧
    cleanPyPiRequirementStr " nibabel >=2.3.0 " = some "nibabel>=2.3.0" := by
  refine ⟨?_, by rfl, by rfl⟩
  subst hreq
  have hm : ("extra == \"" ++ X ++ "\"").data =
      extraPattern ++ ('"' :: X.data ++ ['"']) := by
    rw [String.data_append, String.data_append]
    simp [extraPattern]
  have hpre : pyStartsWith "extra == " ("extra == \"" ++ X ++ "\"") = true := by
    unfold pyStartsWith
    apply List.isPrefixOf_iff_prefix.mpr
    show "extra == ".data <+: ("extra == \"" ++ X ++ "\"").data
    rw [hm]
    exact List.prefix_append _ _
  have hnosp : ' ' ∉ '"' :: X.data ++ ['"'] := by
    intro hmem
    rcases List.mem_cons.mp hmem with h | h
    · exact absurd h.symm (by decide)
    · rcases List.mem_append.mp h with h | h
      · have := hX ' ' h
        exact absurd this (by decide)
      · exact absurd (List.mem_singleton.mp h).symm (by decide)
  have hrepl : replaceExtraPattern ("extra == \"" ++ X ++ "\"").data =
      '"' :: X.data ++ ['"'] := by
    rw [hm, replaceExtra_left, replaceExtra_no_space _ hnosp]
  unfold cleanPyPiRequirement
  simp only [List.isEmpty_nil, if_true, hpre, Bool.and_self, if_pos]
  rw [show ("" == "") = true from rfl]
  simp only [Bool.true_and, if_true]
  show pkg ++ ("[" ++ (removeNonWord
      (replaceExtraPattern ("extra == \"" ++ X ++ "\"").toList)).asString ++ "]") ++ spec = _
  rw [show ("extra == \"" ++ X ++ "\"").toList =
      ("extra == \"" ++ X ++ "\"").data from rfl]
  rw [hrepl, removeNonWord_quoted X.data hX]
  rw [show X.data.asString = X from String.asString_toList X]
  simp [String.append_assoc]

theorem c7_clean_requirement_witness :
    cleanPyPiRequirement ⟨"ruff", [], "", some "extra == \"dev\""⟩ = "ruff[dev]" := by
  have h := c7_clean_requirement "ruff" "dev" "" ⟨"ruff", [], "", some "extra == \"dev\""⟩
    (by rfl) (by decide)
  simpa using h.1

/-! ## C9: selective pip install returns exactly the skipped requirements -/

theorem pipSucc_badcmd (env : PipEnv) (pkg cmd : String) (skip : List String)
    (fuel : Nat) (hc : cleanPyPiRequirementStr cmd = none) :
    pipInstallSelective env pkg cmd skip (fuel + 1) =
      Except.error (PyErr.invalidRequirement cmd) := by
  rw [pipInstallSelective, hc]

theorem pipSucc_noreqs (env : PipEnv) (pkg cmd : String) (skip : List String)
    (fuel : Nat) (cleaned : String)
    (hc : cleanPyPiRequirementStr cmd = some cleaned)
    (hreq : env.requires pkg = none) :
    pipInstallSelective env pkg cmd skip (fuel + 1) =
      Except.ok ([], [PipAction.installNoDeps (cleaned ++ " --no-deps")]) := by
  rw [pipInstallSelective, hc, hreq]

theorem pipSucc_nilreqs (env : PipEnv) (pkg cmd : String) (skip : List String)
    (fuel : Nat) (cleaned : String)
    (hc : cleanPyPiRequirementStr cmd = some cleaned)
    (hreq : env.requires pkg = some []) :
    pipInstallSelective env pkg cmd skip (fuel + 1) =
      Except.ok ([], [PipAction.installNoDeps (cleaned ++ " --no-deps")]) := by
  rw [pipInstallSelective, hc, hreq]

theorem pipSucc_reqs (env : PipEnv) (pkg cmd : String) (skip : List String)
    (fuel : Nat) (cleaned r0 : String) (rest : List String)
    (hc : cleanPyPiRequirementStr cmd = some cleaned)
    (hreq : env.requires pkg = some (r0 :: rest)) :
    pipInstallSelective env pkg cmd skip (fuel + 1) =
      (do
        let pr ← pipLoop env skip (r0 :: rest) fuel
        Except.ok (pr.1,
          [PipAction.installNoDeps (cleaned ++ " --no-deps")] ++
            [PipAction.metaRewrite pkg] ++ pr.2)) := by
  rw [pipInstallSelective, hc, hreq]

theorem pipInstallSelective_ok_head (env : PipEnv) (pkg cmd : String)
    (skip : List String) (fuel : Nat) (sk : List String) (lg : List PipAction)
    (h : pipInstallSelective env pkg cmd skip fuel = Except.ok (sk, lg)) :
    ∃ c, cleanPyPiRequirementStr cmd = some c ∧
      PipAction.installNoDeps (c ++ " --no-deps") ∈ lg := by
  cases fuel with
  | zero =>
    rw [pipInstallSelective] at h
    exact absurd h (by simp)
  | succ fuel =>
    cases hc : cleanPyPiRequirementStr cmd with
    | none =>
      rw [pipSucc_badcmd env pkg cmd skip fuel hc] at h
      exact absurd h (by simp)
    | some cleaned =>
      refine ⟨cleaned, rfl, ?_⟩
      cases hreq : env.requires pkg with
      | none =>
        rw [pipSucc_noreqs env pkg cmd skip fuel cleaned hc hreq] at h
        simp only [Except.ok.injEq, Prod.mk.injEq] at h
        rw [← h.2]
        simp
      | some reqs =>
        cases reqs with
        | nil =>
          rw [pipSucc_nilreqs env pkg cmd skip fuel cleaned hc hreq] at h
          simp only [Except.ok.injEq, Prod.mk.injEq] at h
          rw [← h.2]
          simp
        | cons r0 rest =>
          rw [pipSucc_reqs env pkg cmd skip fuel cleaned r0 rest hc hreq] at h
          cases hloop : pipLoop env skip (r0 :: rest) fuel with
          | error e => rw [hloop] at h; exact absurd h (by simp)
          | ok pr =>
            rw [hloop] at h
            simp only [except_bind_ok, Except.ok.injEq, Prod.mk.injEq] at h
            rw [← h.2]
            simp

theorem pipLoop_ok_skipped (env : PipEnv) (skip : List String) :
    ∀ l : List String, ∀ fuel sk lg,
      pipLoop env skip l fuel = Except.ok (sk, lg) →
      sk = l.filter (fun r => skip.any fun p => pyStartsWith p r) := by
  intro l
  induction l with
  | nil =>
    intro fuel sk lg h
    rw [pipLoop] at h
    simp only [Except.ok.injEq, Prod.mk.injEq] at h
    rw [← h.1]
    rfl
  | cons r rest ih =>
    intro fuel sk lg h
    rw [pipLoop] at h
    by_cases hs : (skip.any fun p => pyStartsWith p r) = true
    · rw [if_pos hs] at h
      cases hrec : pipLoop env skip rest fuel with
      | error e => rw [hrec] at h; exact absurd h (by simp)
      | ok pr =>
        rw [hrec] at h
        obtain ⟨sk1, lg1⟩ := pr
        simp only [except_bind_ok, Except.ok.injEq, Prod.mk.injEq] at h
        rw [← h.1, List.filter_cons, if_pos hs, ih fuel sk1 lg1 hrec]
    · rw [if_neg hs] at h
      rw [List.filter_cons,
        if_neg (by simpa using hs)]
      by_cases hn : env.needsInstall r = true
      · rw [if_pos hn] at h
        split at h
        · exact absurd h (by simp)
        · rename_i rq hpr
          cases h1 : pipInstallSelective env rq.name r skip fuel with
          | error e => rw [h1] at h; exact absurd h (by simp)
          | ok pr1 =>
            rw [h1] at h
            obtain ⟨sk1, lg1⟩ := pr1
            simp only [except_bind_ok] at h
            cases h2 : pipLoop env skip rest fuel with
            | error e => rw [h2] at h; exact absurd h (by simp)
            | ok pr2 =>
              rw [h2] at h
              obtain ⟨sk2, lg2⟩ := pr2
              simp only [except_bind_ok, Except.ok.injEq, Prod.mk.injEq] at h
              rw [← h.1]
              exact ih fuel sk2 lg2 h2
      · rw [if_neg hn] at h
        exact ih fuel sk lg h

theorem pipLoop_ok_installs (env : PipEnv) (skip : List String) :
    ∀ l : List String, ∀ fuel sk lg,
      pipLoop env skip l fuel = Except.ok (sk, lg) →
      ∀ r ∈ l, (skip.any fun p => pyStartsWith p r) = false →
        env.needsInstall r = true →
        ∃ c, cleanPyPiRequirementStr r = some c ∧
          PipAction.installNoDeps (c ++ " --no-deps") ∈ lg := by
  intro l
  induction l with
  | nil => intro fuel sk lg h r hr; cases hr
  | cons r0 rest ih =>
    intro fuel sk lg h r hr hs hn
    rw [pipLoop] at h
    rcases List.mem_cons.mp hr with rfl | hmem
    · rw [if_neg (by simp [hs]), if_pos hn] at h
      split at h
      · exact absurd h (by simp)
      · rename_i rq hpr
        cases h1 : pipInstallSelective env rq.name r skip fuel with
        | error e => rw [h1] at h; exact absurd h (by simp)
        | ok pr1 =>
          rw [h1] at h
          obtain ⟨sk1, lg1⟩ := pr1
          simp only [except_bind_ok] at h
          cases h2 : pipLoop env skip rest fuel with
          | error e => rw [h2] at h; exact absurd h (by simp)
          | ok pr2 =>
            rw [h2] at h
            obtain ⟨sk2, lg2⟩ := pr2
            simp only [except_bind_ok, Except.ok.injEq, Prod.mk.injEq] at h
            obtain ⟨c, hc, hmem1⟩ :=
              pipInstallSelective_ok_head env rq.name r skip fuel sk1 lg1 h1
            refine ⟨c, hc, ?_⟩
            rw [← h.2]
            exact List.mem_append_left lg2 hmem1
    · by_cases hs0 : (skip.any fun p => pyStartsWith p r0) = true
      · rw [if_pos hs0] at h
        cases hrec : pipLoop env skip rest fuel with
        | error e => rw [hrec] at h; exact absurd h (by simp)
        | ok pr =>
          rw [hrec] at h
          obtain ⟨sk1, lg1⟩ := pr
          simp only [except_bind_ok, Except.ok.injEq, Prod.mk.injEq] at h
          obtain ⟨c, hc, hm⟩ := ih fuel sk1 lg1 hrec r hmem hs hn
          exact ⟨c, hc, h.2 ▸ hm⟩
      · rw [if_neg hs0] at h
        by_cases hn0 : env.needsInstall r0 = true
        · rw [if_pos hn0] at h
          split at h
          · exact absurd h (by simp)
          · rename_i rq hpr
            cases h1 : pipInstallSelective env rq.name r0 skip fuel with
            | error e => rw [h1] at h; exact absurd h (by simp)
            | ok pr1 =>
              rw [h1] at h
              obtain ⟨sk1, lg1⟩ := pr1
              simp only [except_bind_ok] at h
              cases h2 : pipLoop env skip rest fuel with
              | error e => rw [h2] at h; exact absurd h (by simp)
              | ok pr2 =>
                rw [h2] at h
                obtain ⟨sk2, lg2⟩ := pr2
                simp only [except_bind_ok, Except.ok.injEq, Prod.mk.injEq] at h
                obtain ⟨c, hc, hm⟩ := ih fuel sk2 lg2 h2 r hmem hs hn
                refine ⟨c, hc, ?_⟩
                rw [← h.2]
                exact List.mem_append_right lg1 hm
        · rw [if_neg hn0] at h
          exact ih fuel sk lg h r hmem hs hn

theorem namePrefixBridge (p : List Char) :
    ∀ nm rest : List Char,
      (∀ c ∈ p, isNameChar c = true) →
      (rest = [] ∨ ∃ c rest', rest = c :: rest' ∧ isNameChar c = false) →
      (p.isPrefixOf (nm ++ rest) = true ↔ p.isPrefixOf nm = true) := by
  induction p with
  | nil => intro nm rest _ _; simp [List.isPrefixOf]
  | cons c p' ih =>
    intro nm rest hp hrest
    cases nm with
    | nil =>
      simp only [List.nil_append]
      constructor
      · intro h
        rcases hrest with rfl | ⟨d, rest', rfl, hd⟩
        · exact absurd h (by simp [List.isPrefixOf])
        · rw [List.isPrefixOf] at h
          have hcd : c = d := by
            have := (Bool.and_eq_true _ _).mp h
            exact beq_iff_eq.mp this.1
          have : isNameChar c = true := hp c (List.mem_cons_self c p')
          rw [hcd] at this
          exact absurd this (by simp [hd])
      · intro h
        exact absurd h (by simp [List.isPrefixOf])
    | cons a nm' =>
      rw [List.cons_append, List.isPrefixOf, List.isPrefixOf]
      by_cases hca : (c == a) = true
      · simp only [hca, Bool.true_and]
        exact ih nm' rest (fun x hx => hp x (List.mem_cons_of_mem c hx)) hrest
      · simp [hca]

/-- C9: a call of `pipInstallSelective` with declared dependencies returns
exactly the requirement strings matched by a skip-list prefix (string
`startswith`, which on metadata-shaped requirement strings — name followed
by a non-name character — coincides with prefix-matching the requirement
name for name-shaped skip entries), while every unmatched dependency that
needs installing is recursively pip-installed; and when the metadata lookup
yields no declared dependencies the call returns the empty list right after
the `--no-deps` install. -/
theorem c9_pip_install_selective (env : PipEnv) (pkg cmd : String)
    (skip : List String) (fuel : Nat) :
    (∀ cleaned, cleanPyPiRequirementStr cmd = some cleaned →
      (env.requires pkg = none ∨ env.requires pkg = some []) →
      pipInstallSelective env pkg cmd skip (fuel + 1) =
        Except.ok ([], [PipAction.installNoDeps (cleaned ++ " --no-deps")])) ∧
    (∀ reqs sk lg, env.requires pkg = some reqs →
      pipInstallSelective env pkg cmd skip (fuel + 1) = Except.ok (sk, lg) →
      sk = reqs.filter (fun r => skip.any fun p => pyStartsWith p r) ∧
      (∀ r ∈ reqs, (skip.any fun p => pyStartsWith p r) = false →
        env.needsInstall r = true →
        ∃ c, cleanPyPiRequirementStr r = some c ∧
          PipAction.installNoDeps (c ++ " --no-deps") ∈ lg)) ∧
    (∀ r pfx : String, ∀ nm rest2 : List Char, r.data = nm ++ rest2 →
      (∀ c ∈ pfx.data, isNameChar c = true) →
      (rest2 = [] ∨ ∃ c rest3, rest2 = c :: rest3 ∧ isNameChar c = false) →
      (pyStartsWith pfx r = true ↔ pfx.data.isPrefixOf nm = true)) := by
  refine ⟨?_, ?_, ?_⟩
  · intro cleaned hc hreq
    rcases hreq with h | h
    · exact pipSucc_noreqs env pkg cmd skip fuel cleaned hc h
    · exact pipSucc_nilreqs env pkg cmd skip fuel cleaned hc h
  · intro reqs sk lg hreq hok
    cases hc : cleanPyPiRequirementStr cmd with
    | none =>
      rw [pipSucc_badcmd env pkg cmd skip fuel hc] at hok
      exact absurd hok (by simp)
    | some cleaned =>
      cases reqs with
      | nil =>
        rw [pipSucc_nilreqs env pkg cmd skip fuel cleaned hc hreq] at hok
        simp only [Except.ok.injEq, Prod.mk.injEq] at hok
        refine ⟨by rw [← hok.1]; rfl, ?_⟩
        intro r hr
        cases hr
      | cons r0 rest =>
        rw [pipSucc_reqs env pkg cmd skip fuel cleaned r0 rest hc hreq] at hok
        cases hloop : pipLoop env skip (r0 :: rest) fuel with
        | error e => rw [hloop] at hok; exact absurd hok (by simp)
        | ok pr =>
          rw [hloop] at hok
          obtain ⟨sk1, lg1⟩ := pr
          simp only [except_bind_ok, Except.ok.injEq, Prod.mk.injEq] at hok
          refine ⟨by rw [← hok.1]; exact pipLoop_ok_skipped env skip _ fuel sk1 lg1 hloop, ?_⟩
          intro r hr hs hn
          obtain ⟨c, hcr, hm⟩ :=
            pipLoop_ok_installs env skip _ fuel sk1 lg1 hloop r hr hs hn
          refine ⟨c, hcr, ?_⟩
          rw [← hok.2]
          exact List.mem_append_right _ hm
  · intro r pfx nm rest2 hdata hpfx hrest
    unfold pyStartsWith
    rw [show r.toList = r.data from rfl, hdata]
    exact namePrefixBridge pfx.data nm rest2 hpfx hrest

theorem c9_pip_install_selective_witness :
    pipInstallSelective Examples.pipEnvEx "torch" "torch>=2.1.2"
        ["SimpleITK", "torch", "requests", "acvl-utils"] 3 =
      Except.ok ([], [PipAction.installNoDeps "torch>=2.1.2 --no-deps"]) := by
  have h := (c9_pip_install_selective Examples.pipEnvEx "torch" "torch>=2.1.2"
    ["SimpleITK", "torch", "requests", "acvl-utils"] 2).1
    "torch>=2.1.2" (by rfl) (Or.inr (by rfl))
  exact h

/-! ## C2: export name and output glob versus the dataset file ending -/

/-- C2: evaluation at the failing input.  With a model whose `dataset.json`
declares `file_ending = ".nrrd"` (the fixture of the repository's own
`test_exported_volume_file_ending_changes_depending_on_dataset_file` and
`test_loads_segmentations_based_on_dataset_file_ending` tests),
`readFileEndingFromDatasetFile` returns `".nrrd"`, yet the export path is
the fixed `volume_0000.nii.gz` and the output search globs `*.nii*`,
finding nothing, so loading the `.nrrd` result fails. -/
theorem c2_fixed_extension_ignores_dataset_file_ending :
    Examples.segState.param.readFileEndingFromDatasetFile Examples.nrrdFS = ".nrrd" ∧
    Examples.segState.exportVolumePath = ["tmp", "input", "volume_0000.nii.gz"] ∧
    Examples.segState.outFile Examples.nrrdFS = none ∧
    loadSegmentation Examples.segState Examples.nrrdFS Examples.hostSeg =
      Except.error (PyErr.runtimeError
        ("Failed to load the segmentation.\nCheck the inference folder content tmp/output")) := by
  exact ⟨rfl, rfl, rfl, rfl⟩

/-! ## C5: invalid dataset folder name -/

/-- C5: when the dataset folder name neither begins with `Dataset` nor
parses as an integer, `isValid` returns false with a message citing the
invalid dataset name, even when the marker file, fold folders, checkpoint
files and configuration folder name are all valid. -/
theorem c5_invalid_dataset_name (p : Parameter) (fs : FS) (dsf : FPath) (fl : List Int)
    (hds : p.datasetFilePath fs = some dsf)
    (hfl : p.foldsAsList = Except.ok fl)
    (hmiss : Parameter.missingFoldsOf fs (pathParent dsf) fl = [])
    (hw : Parameter.invalidWeightFoldsOf p fs (pathParent dsf) fl = [])
    (hconf : (splitDunder (pathName (pathParent dsf))).length = 3)
    (hname : Parameter.isDatasetNameValidStr (pathName (pathParent (pathParent dsf))) = false) :
    p.isValid fs =
      Except.ok (false, p.invalidDatasetNameMsg (pathName (pathParent (pathParent dsf)))) ∧
    ∃ rest, p.invalidDatasetNameMsg (pathName (pathParent (pathParent dsf))) =
      "Invalid Dataset folder name : " ++ (pathName (pathParent (pathParent dsf)) ++ rest) := by
  constructor
  · unfold Parameter.isValid
    rw [hds]
    simp [hfl, hmiss, hw, hconf, hname]
  · exact ⟨"\n" ++ p.expStructMsg,
      by simp [Parameter.invalidDatasetNameMsg, String.append_assoc]⟩

/-! ## C4: the five `isValid` checks, in order, short-circuiting -/

theorem infix_extend {α : Type} {g m : List α} (a b : List α) (h : g <:+: m) :
    g <:+: a ++ m ++ b := by
  obtain ⟨s, t, rfl⟩ := h
  exact ⟨a ++ s, t ++ b, by simp⟩

theorem mem_infix_joinSepStr (sep : String) (gs : List String) (g : String)
    (hg : g ∈ gs) : g.data <:+: (joinSepStr sep gs).data := by
  induction gs with
  | nil => cases hg
  | cons a gs' ih =>
    cases gs' with
    | nil =>
      rw [List.mem_singleton] at hg
      subst hg
      exact List.infix_refl _
    | cons b gs'' =>
      rcases List.mem_cons.mp hg with hga | hgs
      · subst hga
        exact ⟨[], sep.data ++ (joinSepStr sep (b :: gs'')).data,
          by simp [joinSepStr, String.data_append]⟩
      · obtain ⟨s, t, hst⟩ := ih hgs
        exact ⟨a.data ++ sep.data ++ s, t,
          by simp [joinSepStr, String.data_append, ← hst]⟩

theorem mem_infix_renderIntList (l : List Int) (i : Int) (hi : i ∈ l) :
    (toString i).data <:+: (renderIntList l).data := by
  obtain ⟨s, t, hst⟩ :=
    mem_infix_joinSepStr ", " _ _ (List.mem_map_of_mem toString hi)
  unfold renderIntList
  show _ <:+: String.data _
  simp only [String.data_append]
  exact ⟨"[".data ++ s, t ++ "]".data, by simp [← hst]⟩

/-- C4: `isValid` performs its five checks in source order and
short-circuits on the first failure — (1) a `dataset.json` exists under the
model path (recursive search, first match), (2) every requested fold has a
`fold_<i>` folder, (3) every such folder holds the configured checkpoint
file, (4) the configuration folder name splits into exactly three
`__`-separated parts, (5) the dataset folder name matches the convention —
returning `(true, "")` on success, and on missing requested folds the
failure message names each missing fold. -/
theorem c4_isValid_checks_in_order (p : Parameter) (fs : FS) (fl : List Int)
    (hfl : p.foldsAsList = Except.ok fl) :
    (p.datasetFilePath fs = none →
      p.isValid fs = Except.ok (false, p.datasetMissingMsg)) ∧
    (∀ dsf, p.datasetFilePath fs = some dsf →
      (Parameter.missingFoldsOf fs (pathParent dsf) fl ≠ [] →
        p.isValid fs = Except.ok (false,
          p.missingFoldsMsg (Parameter.missingFoldsOf fs (pathParent dsf) fl))) ∧
      (Parameter.missingFoldsOf fs (pathParent dsf) fl = [] →
        Parameter.invalidWeightFoldsOf p fs (pathParent dsf) fl ≠ [] →
        p.isValid fs = Except.ok (false,
          p.invalidWeightsMsg (Parameter.invalidWeightFoldsOf p fs (pathParent dsf) fl))) ∧
      (Parameter.missingFoldsOf fs (pathParent dsf) fl = [] →
        Parameter.invalidWeightFoldsOf p fs (pathParent dsf) fl = [] →
        (splitDunder (pathName (pathParent dsf))).length ≠ 3 →
        p.isValid fs = Except.ok (false,
          p.invalidConfMsg (pathName (pathParent dsf)))) ∧
      (Parameter.missingFoldsOf fs (pathParent dsf) fl = [] →
        Parameter.invalidWeightFoldsOf p fs (pathParent dsf) fl = [] →
        (splitDunder (pathName (pathParent dsf))).length = 3 →
        Parameter.isDatasetNameValidStr (pathName (pathParent (pathParent dsf))) = false →
        p.isValid fs = Except.ok (false,
          p.invalidDatasetNameMsg (pathName (pathParent (pathParent dsf))))) ∧
      (Parameter.missingFoldsOf fs (pathParent dsf) fl = [] →
        Parameter.invalidWeightFoldsOf p fs (pathParent dsf) fl = [] →
        (splitDunder (pathName (pathParent dsf))).length = 3 →
        Parameter.isDatasetNameValidStr (pathName (pathParent (pathParent dsf))) = true →
        p.isValid fs = Except.ok (true, ""))) ∧
    (∀ missing : List Int, ∀ i ∈ missing,
      (toString i).toList <:+: (p.missingFoldsMsg missing).toList) := by
  refine ⟨?_, ?_, ?_⟩
  · intro hds
    unfold Parameter.isValid
    rw [hds]
  · intro dsf hds
    refine ⟨?_, ?_, ?_, ?_, ?_⟩
    · intro hmiss
      unfold Parameter.isValid
      rw [hds]
      simp [hfl, List.isEmpty_iff, hmiss]
    · intro hmiss hw
      unfold Parameter.isValid
      rw [hds]
      simp [hfl, List.isEmpty_iff, hmiss, hw]
    · intro hmiss hw hconf
      unfold Parameter.isValid
      rw [hds]
      simp [hfl, List.isEmpty_iff, hmiss, hw, hconf]
    · intro hmiss hw hconf hname
      unfold Parameter.isValid
      rw [hds]
      simp [hfl, List.isEmpty_iff, hmiss, hw, hconf, hname]
    · intro hmiss hw hconf hname
      unfold Parameter.isValid
      rw [hds]
      simp [hfl, List.isEmpty_iff, hmiss, hw, hconf, hname]
  · intro missing i hi
    obtain ⟨s, t, hst⟩ := mem_infix_renderIntList missing i hi
    unfold Parameter.missingFoldsMsg
    show _ <:+: String.data _
    simp only [String.data_append]
    exact ⟨"Model folder is missing the following folds : ".data ++ s,
      t ++ (".\n".data ++ p.expStructMsg.data), by simp [← hst]⟩

theorem c4_isValid_checks_in_order_witness :
    Examples.goodParam.isValid Examples.goodFS = Except.ok (true, "") ∧
      Examples.fold5Param.isValid Examples.goodFS = Except.ok (false,
        Examples.fold5Param.missingFoldsMsg [5]) := by
  have h := c4_isValid_checks_in_order Examples.goodParam Examples.goodFS [0] (by rfl)
  have h5 := c4_isValid_checks_in_order Examples.fold5Param Examples.goodFS [5] (by rfl)
  refine ⟨?_, ?_⟩
  · exact (h.2.1 (Examples.goodConfFolder ++ ["dataset.json"]) (by rfl)).2.2.2.2
      (by rfl) (by rfl) (by rfl) (by rfl)
  · exact (h5.2.1 (Examples.goodConfFolder ++ ["dataset.json"]) (by rfl)).1
      (by decide)

theorem c5_invalid_dataset_name_witness :
    Examples.badNameParam.isValid Examples.badNameFS =
      Except.ok (false, Examples.badNameParam.invalidDatasetNameMsg "StringWithoutDS") := by
  have h := c5_invalid_dataset_name Examples.badNameParam Examples.badNameFS
    (Examples.badNameConf ++ ["dataset.json"]) [0]
    (by rfl) (by rfl) (by rfl) (by rfl) (by rfl) (by rfl)
  exact h.1

end SlicerNNUNet
